import Mathlib

set_option maxHeartbeats 1000000
set_option maxRecDepth 8192
set_option linter.unusedVariables false

/-! # Shallow embedding of the Localhost HTTP server (src/main.rs)

Rust `String` / `&str` values are modelled as `List Char` (Unicode scalar
values), and byte buffers (`&[u8]` / `Vec<u8>`) as `List Nat` with each
element a byte value.  Rust string primitives (`lines`, `trim`,
`split_whitespace`, `find`, `from_str_radix`, UTF-8 encoding and
`String::from_utf8_lossy`) are reproduced below, and the server's functions
are translated from the source on top of them. -/

/-- String of a literal, as a character list. -/
def chars (s : String) : List Char := s.data

/-- Rust strings are `List Char` in this embedding. -/
abbrev Str := List Char

/-- Byte buffers are `List Nat` in this embedding. -/
abbrev Bytes := List Nat

/-- A `HashMap<String, String>` is modelled as an association list with
replace-on-insert; the source only observes maps through `get`,
`contains_key`, `insert` and `remove`, so the representation order is
unobservable. -/
abbrev StrMap := List (Str × Str)

/-- Rust `char::is_whitespace` (the Unicode White_Space property). -/
def rustIsWhitespace (c : Char) : Bool :=
  ([0x9, 0xA, 0xB, 0xC, 0xD, 0x20, 0x85, 0xA0, 0x1680,
    0x2000, 0x2001, 0x2002, 0x2003, 0x2004, 0x2005, 0x2006, 0x2007,
    0x2008, 0x2009, 0x200A, 0x2028, 0x2029, 0x202F, 0x205F, 0x3000] : List Nat).contains c.toNat

/-- Rust `str::trim_start`. -/
def rustTrimStart (s : Str) : Str := s.dropWhile rustIsWhitespace

/-- Rust `str::trim_end`. -/
def rustTrimEnd (s : Str) : Str := (s.reverse.dropWhile rustIsWhitespace).reverse

/-- Rust `str::trim`. -/
def rustTrim (s : Str) : Str := rustTrimEnd (rustTrimStart s)

/-- Helper for `splitWhitespace`: accumulates the current token reversed. -/
def splitWhitespaceAux : Str → Str → List Str
| acc, [] => if acc = [] then [] else [acc.reverse]
| acc, c :: rest =>
  if rustIsWhitespace c then
    if acc = [] then splitWhitespaceAux [] rest
    else acc.reverse :: splitWhitespaceAux [] rest
  else splitWhitespaceAux (c :: acc) rest

/-- Rust `str::split_whitespace` (non-empty tokens between whitespace runs). -/
def splitWhitespace (s : Str) : List Str := splitWhitespaceAux [] s

/-- Removes a single trailing carriage return, as `str::lines` does
at an `\r\n` line terminator. -/
def stripOneCR (l : Str) : Str :=
  match l.getLast? with
  | some c => if c = '\r' then l.dropLast else l
  | none => l

/-- Rust `str::split(sep)` for a character separator (keeps empty pieces). -/
def splitChar (sep : Char) (s : Str) : List Str :=
  s.foldr
    (fun c acc =>
      match acc with
      | [] => [[c]]
      | a :: rest => if c = sep then [] :: a :: rest else (c :: a) :: rest)
    [[]]

/-- Rust `str::lines`: split at `\n`; every piece that was followed by a
`\n` loses one trailing `\r`; the final line terminator is optional (a
trailing empty piece is dropped), and a trailing `\r` with no `\n` is
kept. -/
def rustLines (s : Str) : List Str :=
  if s = [] then []
  else
    let segs := splitChar '\n' s
    if segs.getLast? = some [] then segs.dropLast.map stripOneCR
    else segs.dropLast.map stripOneCR ++ [segs.getLast?.getD []]

/-- Rust `str::find(pattern)` for a string pattern: index of the first
occurrence (here a character index; the embedding uses character indices
consistently where the source uses byte indices, which produces the same
splits). -/
def indexOfSub (pat : Str) : Str → Option Nat
| [] => if pat.isPrefixOf ([] : Str) then some 0 else none
| c :: rest =>
  if pat.isPrefixOf (c :: rest) then some 0
  else (indexOfSub pat rest).map (fun n => n + 1)

/-- Rust `str::contains(substring)`. -/
def rustContains (s pat : Str) : Bool := (indexOfSub pat s).isSome

/-- Rust `str::splitn(2, sep)` for a string separator, as the list of
pieces (one piece when the separator does not occur). -/
def rustSplitN2 (sep s : Str) : List Str :=
  match indexOfSub sep s with
  | some p => [s.take p, s.drop (p + sep.length)]
  | none => [s]

/-- Rust `str::splitn(2, sep)` for a character separator. -/
def splitN2Char (sep : Char) (s : Str) : List Str :=
  match s.findIdx? (fun c => c = sep) with
  | some i => [s.take i, s.drop (i + 1)]
  | none => [s]

/-- Fuel-driven splitting loop for `splitSub`; each step removes at least
one element, so `s.length + 1` fuel always suffices. -/
def splitSubFuel (sep : Str) : Nat → Str → List Str
| 0, s => [s]
| fuel + 1, s =>
  match indexOfSub sep s with
  | none => [s]
  | some p =>
    if sep.length = 0 then [s]
    else s.take p :: splitSubFuel sep fuel (s.drop (p + sep.length))

/-- Rust `str::split(marker)` for a string separator (keeps empty pieces);
the separator is assumed non-empty, as at its call sites. -/
def splitSub (sep : Str) (s : Str) : List Str :=
  splitSubFuel sep (s.length + 1) s

/-- Rust `str::starts_with(prefix)`. -/
def startsWithStr (s pre : Str) : Bool := pre.isPrefixOf s

/-- Fuel-driven stripping loop for `trimStartMatchesStr`; each step removes
at least one element, so `s.length + 1` fuel always suffices. -/
def trimStartMatchesFuel (pat : Str) : Nat → Str → Str
| 0, s => s
| fuel + 1, s =>
  if pat ≠ [] ∧ pat.isPrefixOf s then trimStartMatchesFuel pat fuel (s.drop pat.length)
  else s

/-- Rust `str::trim_start_matches(pattern)`: repeatedly removes the prefix. -/
def trimStartMatchesStr (pat s : Str) : Str :=
  trimStartMatchesFuel pat (s.length + 1) s

/-- Fuel-driven stripping loop for `trimEndMatchesStr`. -/
def trimEndMatchesFuel (pat : Str) : Nat → Str → Str
| 0, s => s
| fuel + 1, s =>
  if pat ≠ [] ∧ pat.isSuffixOf s then
    trimEndMatchesFuel pat fuel (s.take (s.length - pat.length))
  else s

/-- Rust `str::trim_end_matches(pattern)`: repeatedly removes the suffix. -/
def trimEndMatchesStr (pat s : Str) : Str :=
  trimEndMatchesFuel pat (s.length + 1) s

/-- ASCII lower-casing of one character (the header names and values the
source lower-cases are ASCII; this models Rust `str::to_lowercase` on them). -/
def asciiLowerChar (c : Char) : Char :=
  if 'A' ≤ c ∧ c ≤ 'Z' then Char.ofNat (c.toNat + 32) else c

/-- Rust `str::to_lowercase` restricted to ASCII case mapping. -/
def lowerStr (s : Str) : Str := s.map asciiLowerChar

/-- ASCII upper-casing of one character. -/
def asciiUpperChar (c : Char) : Char :=
  if 'a' ≤ c ∧ c ≤ 'z' then Char.ofNat (c.toNat - 32) else c

/-- Rust `str::to_uppercase` restricted to ASCII case mapping. -/
def upperStr (s : Str) : Str := s.map asciiUpperChar

/-- Rust `str::replace("-", "_")` (a one-character pattern, so a map). -/
def dashToUnderscore (s : Str) : Str :=
  s.map (fun c => if c = '-' then '_' else c)

/-- Rust `char::to_digit(radix)`. -/
def digitVal (radix : Nat) (c : Char) : Option Nat :=
  let v :=
    if '0' ≤ c ∧ c ≤ '9' then some (c.toNat - 48)
    else if 'a' ≤ c ∧ c ≤ 'z' then some (c.toNat - 87)
    else if 'A' ≤ c ∧ c ≤ 'Z' then some (c.toNat - 55)
    else none
  match v with
  | some d => if d < radix then some d else none
  | none => none

/-- Digit-accumulation loop of Rust integer parsing with checked
arithmetic: fails on a non-digit or when the value would reach `bound`. -/
def parseDigitsPos (radix bound : Nat) : Nat → Str → Option Nat
| acc, [] => some acc
| acc, c :: rest =>
  match digitVal radix c with
  | none => none
  | some d =>
    if acc * radix + d < bound then parseDigitsPos radix bound (acc * radix + d) rest
    else none

/-- Rust `from_str_radix` / `str::parse` for an unsigned integer type whose
exclusive upper bound is `bound`: optional sign (a `-` only parses when the
value is zero, via checked subtraction from zero), at least one digit,
checked overflow. -/
def fromStrRadix (radix bound : Nat) (s : Str) : Option Nat :=
  match s with
  | [] => none
  | '+' :: rest => if rest = [] then none else parseDigitsPos radix bound 0 rest
  | '-' :: rest =>
    if rest = [] then none
    else
      match parseDigitsPos radix bound 0 rest with
      | some 0 => some 0
      | _ => none
  | _ => parseDigitsPos radix bound 0 s

/-- `u8::from_str_radix(s, 16)`. -/
def u8FromHex (s : Str) : Option Nat := fromStrRadix 16 256 s

/-- `usize::from_str_radix(s, 16)` (64-bit `usize`). -/
def usizeFromHex (s : Str) : Option Nat := fromStrRadix 16 (2 ^ 64) s

/-- `str::parse::<u16>()`. -/
def u16FromDec (s : Str) : Option Nat := fromStrRadix 10 65536 s

/-- One lowercase hexadecimal digit, as Rust `{:x}` prints it. -/
def hexDigitChar (n : Nat) : Char :=
  if n < 10 then Char.ofNat (48 + n) else Char.ofNat (87 + n)

/-- Fuel-driven digit loop for `natToHex` (`n / 16 < n` for `n ≥ 16`, so
`n + 1` fuel always suffices). -/
def natToHexFuel : Nat → Nat → Str
| 0, n => []
| fuel + 1, n =>
  if n < 16 then [hexDigitChar n]
  else natToHexFuel fuel (n / 16) ++ [hexDigitChar (n % 16)]

/-- Rust `format!("{:x}", n)`: lowercase hexadecimal, no padding. -/
def natToHex (n : Nat) : Str := natToHexFuel (n + 1) n

/-- Fuel-driven digit loop for `natToDec`. -/
def natToDecFuel : Nat → Nat → Str
| 0, n => []
| fuel + 1, n =>
  if n < 10 then [Char.ofNat (48 + n)]
  else natToDecFuel fuel (n / 10) ++ [Char.ofNat (48 + n % 10)]

/-- Rust `n.to_string()` for an unsigned integer: decimal digits. -/
def natToDec (n : Nat) : Str := natToDecFuel (n + 1) n

/-- UTF-8 encoding of one Unicode scalar value. -/
def utf8EncodeChar (c : Char) : Bytes :=
  let n := c.toNat
  if n < 0x80 then [n]
  else if n < 0x800 then [0xC0 + n / 64, 0x80 + n % 64]
  else if n < 0x10000 then [0xE0 + n / 4096, 0x80 + (n / 64) % 64, 0x80 + n % 64]
  else [0xF0 + n / 262144, 0x80 + (n / 4096) % 64, 0x80 + (n / 64) % 64, 0x80 + n % 64]

/-- Rust `str::as_bytes` / `String::into_bytes`: UTF-8 encoding. -/
def utf8Encode (s : Str) : Bytes := s.flatMap utf8EncodeChar

/-- A UTF-8 continuation byte. -/
def isUtf8Cont (b : Nat) : Bool := 0x80 ≤ b && b < 0xC0

/-- The constrained range of the second byte of a 3- or 4-byte UTF-8
sequence, given its lead byte. -/
def utf8Second (b0 b1 : Nat) : Bool :=
  if b0 = 0xE0 then 0xA0 ≤ b1 && b1 < 0xC0
  else if b0 = 0xED then 0x80 ≤ b1 && b1 < 0xA0
  else if b0 = 0xF0 then 0x90 ≤ b1 && b1 < 0xC0
  else if b0 = 0xF4 then 0x80 ≤ b1 && b1 < 0x90
  else isUtf8Cont b1

/-- U+FFFD REPLACEMENT CHARACTER. -/
def replChar : Char := Char.ofNat 0xFFFD

/-- Rust `String::from_utf8_lossy`: UTF-8 decoding with one U+FFFD
replacement per maximal invalid subpart. -/
def utf8Lossy : Bytes → Str
| [] => []
| b :: rest =>
  if b < 0x80 then Char.ofNat b :: utf8Lossy rest
  else if 0xC2 ≤ b && b ≤ 0xDF then
    match rest with
    | [] => [replChar]
    | b1 :: r1 =>
      if isUtf8Cont b1 then Char.ofNat ((b - 0xC0) * 64 + (b1 - 0x80)) :: utf8Lossy r1
      else replChar :: utf8Lossy (b1 :: r1)
  else if 0xE0 ≤ b && b ≤ 0xEF then
    match rest with
    | [] => [replChar]
    | b1 :: r1 =>
      if utf8Second b b1 then
        match r1 with
        | [] => [replChar]
        | b2 :: r2 =>
          if isUtf8Cont b2 then
            Char.ofNat ((b - 0xE0) * 4096 + (b1 - 0x80) * 64 + (b2 - 0x80)) :: utf8Lossy r2
          else replChar :: utf8Lossy (b2 :: r2)
      else replChar :: utf8Lossy (b1 :: r1)
  else if 0xF0 ≤ b && b ≤ 0xF4 then
    match rest with
    | [] => [replChar]
    | b1 :: r1 =>
      if utf8Second b b1 then
        match r1 with
        | [] => [replChar]
        | b2 :: r2 =>
          if isUtf8Cont b2 then
            match r2 with
            | [] => [replChar]
            | b3 :: r3 =>
              if isUtf8Cont b3 then
                Char.ofNat
                    ((b - 0xF0) * 262144 + (b1 - 0x80) * 4096 + (b2 - 0x80) * 64 + (b3 - 0x80)) ::
                  utf8Lossy r3
              else replChar :: utf8Lossy (b3 :: r3)
          else replChar :: utf8Lossy (b2 :: r2)
      else replChar :: utf8Lossy (b1 :: r1)
  else replChar :: utf8Lossy rest

/-- `HashMap::get`. -/
def lookupKV (k : Str) : StrMap → Option Str
| [] => none
| (a, v) :: rest => if a = k then some v else lookupKV k rest

/-- `HashMap::insert` (replace-on-insert). -/
def insertKV (k v : Str) : StrMap → StrMap
| [] => [(k, v)]
| (a, w) :: rest => if a = k then (k, v) :: rest else (a, w) :: insertKV k v rest

/-- `HashMap::remove`. -/
def removeKV (k : Str) (m : StrMap) : StrMap :=
  m.filter (fun p => !(p.1 = k))

/-- `HashMap::contains_key`. -/
def containsKeyKV (k : Str) (m : StrMap) : Bool :=
  (lookupKV k m).isSome

/-! ## Data model (src/main.rs lines 13-48) -/

/-- `struct FormFile` (main.rs:15). -/
structure FormFile where
  filename : Str
  content_type : Str
  data : Bytes
deriving DecidableEq

/-- `struct HttpRequest` (main.rs:22). -/
structure HttpRequest where
  method : Str
  path : Str
  query_string : Option Str
  version : Str
  headers : StrMap
  cookies : StrMap
  query_params : StrMap
  form_fields : StrMap
  form_files : List (Str × FormFile)
  body : Bytes
deriving DecidableEq

/-- `struct HttpResponse` (main.rs:42). -/
structure HttpResponse where
  status : Nat
  status_text : Str
  headers : StrMap
  body : Bytes
  is_chunked : Bool
deriving DecidableEq

/-- `HttpResponse::new` (main.rs:51): Content-Type text/html and a
Content-Length equal to the body's byte length. -/
def HttpResponse.new (status : Nat) (status_text : Str) (body : Str) : HttpResponse :=
  let headers := insertKV (chars "Content-Type") (chars "text/html") []
  let headers := insertKV (chars "Content-Length") (natToDec (utf8Encode body).length) headers
  { status := status, status_text := status_text, headers := headers,
    body := utf8Encode body, is_chunked := false }

/-- Fuel-driven chunking loop for `rustChunks`; each step removes at least
one element when `n > 0`, so `l.length + 1` fuel always suffices. -/
def rustChunksFuel (n : Nat) : Nat → Bytes → List Bytes
| 0, _ => []
| fuel + 1, l =>
  match l with
  | [] => []
  | b :: rest =>
    if n = 0 then []
    else (b :: rest).take n :: rustChunksFuel n fuel ((b :: rest).drop n)

/-- Rust `slice::chunks(n)` (`n > 0`; the source calls it with 1024). -/
def rustChunks (n : Nat) (l : Bytes) : List Bytes :=
  rustChunksFuel n (l.length + 1) l

/-- The chunked body framing of `HttpResponse::to_bytes` (main.rs:74-84):
each 1024-byte chunk emitted as `<hex-size>\r\n<data>\r\n`, terminated by
`0\r\n\r\n`. -/
def encodeChunkedBody (body : Bytes) : Bytes :=
  (rustChunks 1024 body).foldr
    (fun c acc => utf8Encode (natToHex c.length) ++ [13, 10] ++ c ++ [13, 10] ++ acc)
    [48, 13, 10, 13, 10]

/-- `HttpResponse::to_bytes` (main.rs:65): status line, headers, blank line,
then either the chunk-framed body or the raw body. -/
def HttpResponse.to_bytes (r : HttpResponse) : Bytes :=
  let response :=
    chars "HTTP/1.1 " ++ natToDec r.status ++ chars " " ++ r.status_text ++ chars "\r\n"
      ++ (r.headers.map (fun p => p.1 ++ chars ": " ++ p.2 ++ chars "\r\n")).flatten
      ++ chars "\r\n"
  let bytes := utf8Encode response
  if r.is_chunked then bytes ++ encodeChunkedBody r.body
  else bytes ++ r.body

/-! ## ResponseBuilder (main.rs lines 263-419) -/

/-- `struct ResponseBuilder` (main.rs:263). -/
structure ResponseBuilder where
  status : Nat
  status_text : Str
  headers : StrMap
  body : Bytes
  cookies : List (Str × Str)
  is_chunked : Bool
deriving DecidableEq

/-- `ResponseBuilder::new` (main.rs:274). -/
def ResponseBuilder.new : ResponseBuilder :=
  { status := 200, status_text := chars "OK", headers := [], body := [],
    cookies := [], is_chunked := false }

/-- `ResponseBuilder::status` (main.rs:286); primed because `status` is the
field accessor. -/
def ResponseBuilder.status' (b : ResponseBuilder) (status : Nat) (status_text : Str) :
    ResponseBuilder :=
  { b with status := status, status_text := status_text }

/-- `ResponseBuilder::header` (main.rs:293). -/
def ResponseBuilder.header (b : ResponseBuilder) (key value : Str) : ResponseBuilder :=
  { b with headers := insertKV key value b.headers }

/-- `ResponseBuilder::content_type` (main.rs:299). -/
def ResponseBuilder.content_type (b : ResponseBuilder) (ct : Str) : ResponseBuilder :=
  { b with headers := insertKV (chars "Content-Type") ct b.headers }

/-- `ResponseBuilder::body_text` (main.rs:305). -/
def ResponseBuilder.body_text (b : ResponseBuilder) (body : Str) : ResponseBuilder :=
  { b with body := utf8Encode body }

/-- `ResponseBuilder::body_bytes` (main.rs:312). -/
def ResponseBuilder.body_bytes (b : ResponseBuilder) (body : Bytes) : ResponseBuilder :=
  { b with body := body }

/-- `ResponseBuilder::cookie` (main.rs:319): pushes onto the cookies vector. -/
def ResponseBuilder.cookie (b : ResponseBuilder) (name value : Str) : ResponseBuilder :=
  { b with cookies := b.cookies ++ [(name, value)] }

/-- `ResponseBuilder::cookie_with_options` (main.rs:325): formats the cookie
string and inserts it directly as the `Set-Cookie` header. -/
def ResponseBuilder.cookie_with_options (b : ResponseBuilder) (name value : Str)
    (max_age : Option Nat) (path : Str) (http_only : Bool) : ResponseBuilder :=
  let cookie_str := name ++ chars "=" ++ value
  let cookie_str :=
    match max_age with
    | some age => cookie_str ++ chars "; Max-Age=" ++ natToDec age
    | none => cookie_str
  let cookie_str := cookie_str ++ chars "; Path=" ++ path
  let cookie_str := if http_only then cookie_str ++ chars "; HttpOnly" else cookie_str
  { b with headers := insertKV (chars "Set-Cookie") cookie_str b.headers }

/-- `ResponseBuilder::chunked` (main.rs:342): sets the flag; when enabling,
inserts `Transfer-Encoding: chunked` and removes `Content-Length`. -/
def ResponseBuilder.chunked (b : ResponseBuilder) (enable : Bool) : ResponseBuilder :=
  if enable then
    { b with is_chunked := enable,
             headers :=
               removeKV (chars "Content-Length")
                 (insertKV (chars "Transfer-Encoding") (chars "chunked") b.headers) }
  else { b with is_chunked := enable }

/-- Rust `str::ends_with`. -/
def endsWithStr (s suf : Str) : Bool := suf.isSuffixOf s

/-- `ResponseBuilder::get_content_type` (main.rs:363): extension to MIME. -/
def ResponseBuilder.get_content_type (path : Str) : Str :=
  if endsWithStr path (chars ".html") then chars "text/html"
  else if endsWithStr path (chars ".css") then chars "text/css"
  else if endsWithStr path (chars ".js") then chars "application/javascript"
  else if endsWithStr path (chars ".json") then chars "application/json"
  else if endsWithStr path (chars ".png") then chars "image/png"
  else if endsWithStr path (chars ".jpg") || endsWithStr path (chars ".jpeg") then
    chars "image/jpeg"
  else if endsWithStr path (chars ".gif") then chars "image/gif"
  else if endsWithStr path (chars ".svg") then chars "image/svg+xml"
  else if endsWithStr path (chars ".pdf") then chars "application/pdf"
  else if endsWithStr path (chars ".txt") then chars "text/plain"
  else if endsWithStr path (chars ".xml") then chars "application/xml"
  else if endsWithStr path (chars ".woff") then chars "font/woff"
  else if endsWithStr path (chars ".woff2") then chars "font/woff2"
  else chars "application/octet-stream"

/-- `ResponseBuilder::file` (main.rs:353); `fs::read`'s outcome is supplied
as the `fileData` argument (an `Err` is a file-system error surfaced to the
caller). -/
def ResponseBuilder.file (b : ResponseBuilder) (fileData : Except Unit Bytes) (path : Str) :
    Except Unit ResponseBuilder :=
  match fileData with
  | .error e => .error e
  | .ok data =>
    .ok { b with body := data,
                 headers :=
                   insertKV (chars "Content-Type") (ResponseBuilder.get_content_type path)
                     b.headers }

/-- `ResponseBuilder::build` (main.rs:397): Content-Length when not chunked
and not already set, then one `Set-Cookie` insert per accumulated cookie. -/
def ResponseBuilder.build (b : ResponseBuilder) : HttpResponse :=
  let headers :=
    if !b.is_chunked && !containsKeyKV (chars "Content-Length") b.headers then
      insertKV (chars "Content-Length") (natToDec b.body.length) b.headers
    else b.headers
  let headers :=
    b.cookies.foldl (fun h c => insertKV (chars "Set-Cookie") (c.1 ++ chars "=" ++ c.2) h)
      headers
  { status := b.status, status_text := b.status_text, headers := headers,
    body := b.body, is_chunked := b.is_chunked }

/-! ## CGIExecutor (main.rs lines 93-260) -/

/-- Status-line / header accumulation loop of `parse_cgi_response`
(main.rs:224-245): for each line, a `Status:` prefix updates the status
code (and the text, when present), otherwise a `key: value` pair is
inserted; empty lines are skipped. -/
def parseCgiHeaderLines : List Str → Nat → Str → StrMap → Nat × Str × StrMap
| [], code, text, hs => (code, text, hs)
| line :: rest, code, text, hs =>
  if line = [] then parseCgiHeaderLines rest code text hs
  else if startsWithStr line (chars "Status:") then
    let status_line := rustTrim (trimStartMatchesStr (chars "Status:") line)
    let parts := splitN2Char ' ' status_line
    match u16FromDec (parts.headD []) with
    | some c =>
      if parts.length > 1 then parseCgiHeaderLines rest c (parts.getD 1 []) hs
      else parseCgiHeaderLines rest c text hs
    | none => parseCgiHeaderLines rest code text hs
  else
    match line.findIdx? (fun ch => ch = ':') with
    | some colon =>
      parseCgiHeaderLines rest code text
        (insertKV (rustTrim (line.take colon)) (rustTrim (line.drop (colon + 1))) hs)
    | none => parseCgiHeaderLines rest code text hs

/-- `CGIExecutor::parse_cgi_response` (main.rs:202): split headers from body
at the first `\r\n\r\n`, else at the first `\n\n`, else treat the whole
output as body under a dummy `Status: 200 OK` header block; parse the
header lines; default `Content-Type` to `text/html`. -/
def parse_cgi_response (output : Str) : HttpResponse :=
  let partsA := rustSplitN2 (chars "\r\n\r\n") output
  let hb :=
    if partsA.length = 2 then (partsA.getD 0 [], partsA.getD 1 [])
    else
      let partsB := rustSplitN2 (chars "\n\n") output
      if partsB.length = 2 then (partsB.getD 0 [], partsB.getD 1 [])
      else (chars "Status: 200 OK", output)
  let scan := parseCgiHeaderLines (rustLines hb.1) 200 (chars "OK") []
  let headers :=
    if containsKeyKV (chars "Content-Type") scan.2.2 then scan.2.2
    else insertKV (chars "Content-Type") (chars "text/html") scan.2.2
  { status := scan.1, status_text := scan.2.1, headers := headers,
    body := utf8Encode hb.2, is_chunked := false }

/-- `CGIExecutor::build_cgi_env` (main.rs:152): the per-request CGI/1.1
environment; `sysEnv` stands for the host process's `env::vars()`. -/
def build_cgi_env (request : HttpRequest) (client_ip : Str) (sysEnv : StrMap) : StrMap :=
  let env := insertKV (chars "REQUEST_METHOD") request.method []
  let env := insertKV (chars "SCRIPT_NAME") request.path env
  let env := insertKV (chars "PATH_INFO") request.path env
  let env := insertKV (chars "QUERY_STRING") (request.query_string.getD []) env
  let env := insertKV (chars "CONTENT_LENGTH") (natToDec request.body.length) env
  let env :=
    match lookupKV (chars "Content-Type") request.headers with
    | some content_type => insertKV (chars "CONTENT_TYPE") content_type env
    | none => insertKV (chars "CONTENT_TYPE") (chars "text/plain") env
  let env := insertKV (chars "SERVER_NAME") (chars "localhost") env
  let env := insertKV (chars "SERVER_PORT") (chars "8000") env
  let env := insertKV (chars "SERVER_PROTOCOL") request.version env
  let env := insertKV (chars "SERVER_SOFTWARE") (chars "localhost-http-server/1.0") env
  let env := insertKV (chars "REMOTE_ADDR") client_ip env
  let env := insertKV (chars "REMOTE_HOST") client_ip env
  let env :=
    request.headers.foldl
      (fun e p => insertKV (chars "HTTP_" ++ dashToUnderscore (upperStr p.1)) p.2 e) env
  let env := insertKV (chars "GATEWAY_INTERFACE") (chars "CGI/1.1") env
  let env :=
    sysEnv.foldl
      (fun e p =>
        if p.1 = chars "PATH" ∨ p.1 = chars "HOME" ∨ p.1 = chars "USER" then
          insertKV p.1 p.2 e
        else e)
      env
  env

/-- `CGIExecutor::execute` (main.rs:98).  The file-system check
`Path::new(script_path).exists()` is the `scriptExists` argument, and the
combined outcome of `Command::spawn` / `wait_with_output` is the `proc`
argument (an `Err` carries the I/O error's display string, an `Ok` the
child's stdout bytes).  The `chmod` helper invocation, the environment
construction and the stdin write do not affect the returned value and the
stdin write's errors are discarded by the source (`let _ = ...`). -/
def CGIExecutor.execute (scriptExists : Bool) (proc : Except Str Bytes)
    (script_path : Str) (request : HttpRequest) (client_ip : Str) :
    Except Str HttpResponse :=
  if !scriptExists then
    .ok (HttpResponse.new 404 (chars "Not Found") (chars "CGI script not found"))
  else
    match proc with
    | .error e => .error e
    | .ok stdout => .ok (parse_cgi_response (utf8Lossy stdout))

/-- The script path computed by `handle_cgi` (main.rs:1562):
`format!("cgi-bin/{}", req.path.trim_start_matches("/cgi-bin/"))`. -/
def cgi_path_of (req : HttpRequest) : Str :=
  chars "cgi-bin/" ++ trimStartMatchesStr (chars "/cgi-bin/") req.path

/-- Literal text of `handle_cgi`'s 500 page before the error code (the source's
escaped braces render as single braces). -/
def cgiErrorPre : Str :=
  chars ("<!DOCTYPE html>\n<html>\n<head>\n    <title>CGI Error</title>\n    <style>\n        body \x7b font-family: Arial, sans-serif; margin: 20px; background: #f5f5f5; \x7d\n        .error \x7b background: #ffebee; padding: 20px; border-left: 4px solid #f44336; border-radius: 4px; \x7d\n        code \x7b background: #f0f0f0; padding: 2px 6px; border-radius: 3px; \x7d\n    </style>\n</head>\n<body>\n    <div class=\"error\">\n        <h1>CGI Execution Error</h1>\n        <p><strong>Error:</strong> <code>")

/-- Literal text of `handle_cgi`'s 500 page between the error code and the
script path. -/
def cgiErrorMid : Str :=
  chars ("</code></p>\n        <p>Failed to execute CGI script at <code>")

/-- Literal text of `handle_cgi`'s 500 page after the script path. -/
def cgiErrorSuf : Str :=
  chars ("</code></p>\n    </div>\n</body>\n</html>")

/-- `handle_cgi` (main.rs:1560): execute the script; an `Ok` response is
returned as is, an `Err` is converted into a 500 response whose body embeds
the error and the script path. -/
def handle_cgi (req : HttpRequest) (scriptExists : Bool) (proc : Except Str Bytes)
    (client_ip : Str) : HttpResponse :=
  let cgi_path := cgi_path_of req
  match CGIExecutor.execute scriptExists proc cgi_path req client_ip with
  | .ok response => response
  | .error e =>
    (((ResponseBuilder.new.status' 500 (chars "Internal Server Error")).content_type
          (chars "text/html; charset=utf-8")).body_text
        (cgiErrorPre ++ e ++ cgiErrorMid ++ cgi_path ++ cgiErrorSuf)).build

/-! ## HttpParser (main.rs lines 421-702) -/

/-- `std::str::from_utf8(&[h1, h2])` followed by `u8::from_str_radix(_, 16)`
(main.rs:556-558): two ASCII bytes are required for the hex parse to have a
chance (a valid non-ASCII two-byte sequence decodes to a character that is
not a digit or sign, so the parse fails either way). -/
def hexPairVal (h1 h2 : Nat) : Option Nat :=
  if h1 < 0x80 && h2 < 0x80 then u8FromHex [Char.ofNat h1, Char.ofNat h2]
  else none

/-- Byte loop of `HttpParser::url_decode` (main.rs:549): `%XX` consumes two
bytes (dropped silently when not a valid escape), `+` becomes a space, any
other byte is pushed as a character. -/
def urlDecodeBytes : Bytes → Str
| [] => []
| b :: rest =>
  if b = 0x25 then
    match rest with
    | [] => []
    | [_] => []
    | h1 :: h2 :: rest2 =>
      match hexPairVal h1 h2 with
      | some v => Char.ofNat v :: urlDecodeBytes rest2
      | none => urlDecodeBytes rest2
  else if b = 0x2B then ' ' :: urlDecodeBytes rest
  else Char.ofNat b :: urlDecodeBytes rest

/-- `HttpParser::url_decode` (main.rs:549): decodes the string's UTF-8
bytes. -/
def HttpParser.url_decode (encoded : Str) : Str :=
  urlDecodeBytes (utf8Encode encoded)

/-- `HttpParser::parse_cookies` (main.rs:524): semicolon-separated
`name=value` pairs, trimmed, inserted into the cookie map. -/
def HttpParser.parse_cookies (cookie_header : Str) (cookies : StrMap) : StrMap :=
  (splitChar ';' cookie_header).foldl
    (fun cs c =>
      let c := rustTrim c
      match c.findIdx? (fun ch => ch = '=') with
      | some pos => insertKV (rustTrim (c.take pos)) (rustTrim (c.drop (pos + 1))) cs
      | none => cs)
    cookies

/-- `HttpParser::parse_query_string` (main.rs:535): split on `&`, split each
parameter at the first `=`, percent-decode both halves; a parameter with no
`=` maps to the empty string. -/
def HttpParser.parse_query_string (query_string : Str) : StrMap :=
  (splitChar '&' query_string).foldl
    (fun params param =>
      match param.findIdx? (fun ch => ch = '=') with
      | some pos =>
        insertKV (HttpParser.url_decode (param.take pos))
          (HttpParser.url_decode (param.drop (pos + 1))) params
      | none => insertKV (HttpParser.url_decode param) [] params)
    []

/-- Line loop of `HttpParser::decode_chunked` (main.rs:577-597): a line that
parses as a hex size is followed by one data line contributing
`min(size, line length)` bytes; a `0` size stops; a non-hex line is
skipped. -/
def decodeChunkedLines : List Str → Bytes
| [] => []
| l :: rest =>
  match usizeFromHex (rustTrim l) with
  | none => decodeChunkedLines rest
  | some n =>
    if n = 0 then []
    else
      match rest with
      | [] => []
      | d :: rest2 =>
        (utf8Encode d).take (min n (utf8Encode d).length) ++ decodeChunkedLines rest2

/-- `HttpParser::decode_chunked` (main.rs:572). -/
def HttpParser.decode_chunked (data : Bytes) : Bytes :=
  decodeChunkedLines (rustLines (utf8Lossy data))

/-- Replace-on-insert association list for form files. -/
def insertFileKV (k : Str) (v : FormFile) : List (Str × FormFile) → List (Str × FormFile)
| [] => [(k, v)]
| (a, w) :: rest => if a = k then (k, v) :: rest else (a, w) :: insertFileKV k v rest

/-- Per-part header scan of `HttpParser::parse_multipart` (main.rs:660-684):
accumulates (field name, optional filename, part content type). -/
def multipartHeaderScan (headerLines : List Str) : Str × Option Str × Str :=
  headerLines.foldl
    (fun st header_line =>
      match header_line.findIdx? (fun ch => ch = ':') with
      | some colon =>
        let header_name := lowerStr (rustTrim (header_line.take colon))
        let header_value := rustTrim (header_line.drop (colon + 1))
        if header_name = chars "content-disposition" then
          let st :=
            match indexOfSub (chars "name=\"") header_value with
            | some name_start0 =>
              let name_start := name_start0 + 6
              match (header_value.drop name_start).findIdx? (fun ch => ch = '"') with
              | some name_end => ((header_value.drop name_start).take name_end, st.2.1, st.2.2)
              | none => st
            | none => st
          match indexOfSub (chars "filename=\"") header_value with
          | some file_start0 =>
            let file_start := file_start0 + 10
            match (header_value.drop file_start).findIdx? (fun ch => ch = '"') with
            | some file_end => (st.1, some ((header_value.drop file_start).take file_end), st.2.2)
            | none => st
          | none => st
        else if header_name = chars "content-type" then (st.1, st.2.1, header_value)
        else st
      | none => st)
    ([], none, chars "text/plain")

/-- One part of `HttpParser::parse_multipart`'s loop body (main.rs:649-699):
trim the part, split at the first `\r\n\r\n` into part headers and content
(a part without that separator is skipped), strip trailing `\r\n` from the
content, then record a file (when a filename is present) or a field. -/
def processMultipartPart (p : Str) (acc : StrMap × List (Str × FormFile)) :
    StrMap × List (Str × FormFile) :=
  let part := rustTrim p
  match indexOfSub (chars "\r\n\r\n") part with
  | none => acc
  | some blank_line_pos =>
    let headers_str := part.take blank_line_pos
    let content := part.drop (blank_line_pos + 4)
    let content := trimEndMatchesStr (chars "\r\n") content
    let scan := multipartHeaderScan (rustLines headers_str)
    match scan.2.1 with
    | some filename =>
      (acc.1,
        insertFileKV scan.1
          { filename := filename, content_type := scan.2.2, data := utf8Encode content }
          acc.2)
    | none => (insertKV scan.1 content acc.1, acc.2)

/-- The part loop of `HttpParser::parse_multipart`: stops entirely at a part
containing `--` (the closing marker). -/
def multipartLoop : List Str → StrMap × List (Str × FormFile) → StrMap × List (Str × FormFile)
| [], acc => acc
| p :: rest, acc =>
  if rustContains p (chars "--") then acc
  else multipartLoop rest (processMultipartPart p acc)

/-- `HttpParser::parse_multipart` (main.rs:633): split the body on
`--<boundary>`, skip the text before the first boundary, process parts. -/
def HttpParser.parse_multipart (body : Bytes) (boundary : Str) :
    StrMap × List (Str × FormFile) :=
  let body_str := utf8Lossy body
  let boundary_marker := chars "--" ++ boundary
  let parts := splitSub boundary_marker body_str
  multipartLoop (parts.drop 1) ([], [])

/-- `HttpParser::parse_form_data` (main.rs:602): URL-encoded bodies produce
fields (parameters without `=` are dropped); multipart bodies require a
`boundary=` parameter; anything else produces empty maps. -/
def HttpParser.parse_form_data (content_type : Str) (body : Bytes) :
    StrMap × List (Str × FormFile) :=
  if rustContains content_type (chars "application/x-www-form-urlencoded") then
    ((splitChar '&' (utf8Lossy body)).foldl
        (fun fields param =>
          match param.findIdx? (fun ch => ch = '=') with
          | some pos =>
            insertKV (HttpParser.url_decode (param.take pos))
              (HttpParser.url_decode (param.drop (pos + 1))) fields
          | none => fields)
        [],
      [])
  else if rustContains content_type (chars "multipart/form-data") then
    match indexOfSub (chars "boundary=") content_type with
    | some boundary_start =>
      let boundary := content_type.drop (boundary_start + 9)
      let boundary :=
        match boundary.findIdx? (fun ch => ch = ';') with
        | some semicolon => boundary.take semicolon
        | none => boundary
      HttpParser.parse_multipart body boundary
    | none => ([], [])
  else ([], [])

/-- The state accumulated by `HttpParser::parse`'s header loop
(main.rs:452-486). -/
structure HeaderScan where
  headers : StrMap
  cookies : StrMap
  body_start : Nat
  is_chunked : Bool
  content_type : Str
deriving DecidableEq

/-- Header loop of `HttpParser::parse` (main.rs:459-486): `i` is the
absolute line index; the first empty line records `body_start = i + 1` and
breaks; `key: value` lines feed the cookie map, the chunked flag and the
content type, then land in the header map. -/
def scanHeaderLines : Nat → List Str → HeaderScan → HeaderScan
| _, [], st => st
| i, line :: rest, st =>
  if line = [] then { st with body_start := i + 1 }
  else
    let st :=
      match line.findIdx? (fun ch => ch = ':') with
      | some colon_pos =>
        let key := rustTrim (line.take colon_pos)
        let value := rustTrim (line.drop (colon_pos + 1))
        let st :=
          if lowerStr key = chars "cookie" then
            { st with cookies := HttpParser.parse_cookies value st.cookies }
          else st
        let st :=
          if lowerStr key = chars "transfer-encoding" then
            { st with is_chunked := rustContains (lowerStr value) (chars "chunked") }
          else st
        let st :=
          if lowerStr key = chars "content-type" then { st with content_type := value }
          else st
        { st with headers := insertKV key value st.headers }
      | none => st
    scanHeaderLines (i + 1) rest st

/-- `HttpParser::parse` (main.rs:424): `None` when there are no lines or the
request line has fewer than three whitespace-separated tokens; otherwise a
request whose body is the lines from `body_start` on rejoined with `\n`
(chunk-decoded when a `Transfer-Encoding: chunked` header was seen). -/
def HttpParser.parse (data : Bytes) : Option HttpRequest :=
  let request_str := utf8Lossy data
  let lines := rustLines request_str
  match lines with
  | [] => none
  | first :: _ =>
    let request_line_parts := splitWhitespace first
    if request_line_parts.length < 3 then none
    else
      let method := request_line_parts.getD 0 []
      let full_path := request_line_parts.getD 1 []
      let version := request_line_parts.getD 2 []
      let pq :=
        match full_path.findIdx? (fun ch => ch = '?') with
        | some pos => (full_path.take pos, some (full_path.drop (pos + 1)))
        | none => (full_path, none)
      let scan := scanHeaderLines 1 lines.tail ⟨[], [], 0, false, []⟩
      let query_params :=
        match pq.2 with
        | some qs => HttpParser.parse_query_string qs
        | none => []
      let body :=
        if scan.body_start < lines.length then
          utf8Encode (List.intercalate (chars "\n") (lines.drop scan.body_start))
        else []
      let body := if scan.is_chunked then HttpParser.decode_chunked body else body
      let ff := HttpParser.parse_form_data scan.content_type body
      some
        { method := method, path := pq.1, query_string := pq.2, version := version,
          headers := scan.headers, cookies := scan.cookies, query_params := query_params,
          form_fields := ff.1, form_files := ff.2, body := body }

/-! ## Router (main.rs lines 704-755) -/

/-- `struct Route` (main.rs:706); the handler function pointer is abstracted
to a type parameter so that theorems can observe which handler is chosen. -/
structure Route (α : Type) where
  method : Str
  path : Str
  handler : α
deriving DecidableEq

/-- The outcome of `Router::handle`: delegate to the CGI bridge (the source
calls `handle_cgi(request, "127.0.0.1")`), invoke a route's handler, or the
404 response `HttpResponse::new(404, "Not Found", ...)`. -/
inductive RouteOutcome (α : Type) where
| cgi
| handler (h : α)
| notFound
deriving DecidableEq

/-- The literal client address `Router::handle` passes to `handle_cgi`
(main.rs:734). -/
def routerCgiClientIp : Str := chars "127.0.0.1"

/-- `Router::handle` (main.rs:731): CGI paths bypass the table; otherwise an
exact-match scan in registration order, then a non-root prefix-match scan in
registration order, then 404. -/
def Router.handle {α : Type} (routes : List (Route α)) (request : HttpRequest) :
    RouteOutcome α :=
  if startsWithStr request.path (chars "/cgi-bin/") then RouteOutcome.cgi
  else
    match routes.find?
        (fun route => route.method == request.method && route.path == request.path) with
    | some route => RouteOutcome.handler route.handler
    | none =>
      match routes.find?
          (fun route =>
            route.method == request.method && route.path != chars "/" &&
              startsWithStr request.path route.path) with
      | some route => RouteOutcome.handler route.handler
      | none => RouteOutcome.notFound

/-! ## Builder call sequences

`ResponseBuilder` is used through chained calls; a call sequence is modelled
as a list of operations folded over `ResponseBuilder::new`, so that
invariants of `build` can be stated over every possible chain. -/

/-- One `ResponseBuilder` method call. -/
inductive BuilderOp where
| opStatus (status : Nat) (status_text : Str)
| opHeader (key value : Str)
| opContentType (ct : Str)
| opBodyText (body : Str)
| opBodyBytes (body : Bytes)
| opCookie (name value : Str)
| opCookieWithOptions (name value : Str) (max_age : Option Nat) (path : Str) (http_only : Bool)
| opChunked (enable : Bool)
| opFileOk (data : Bytes) (path : Str)
deriving DecidableEq

/-- Interpretation of one builder call; `opFileOk` is a `file` call whose
`fs::read` succeeded (a failed read aborts the chain, so it builds no
response). -/
def applyBuilderOp (b : ResponseBuilder) : BuilderOp → ResponseBuilder
| .opStatus s t => b.status' s t
| .opHeader k v => b.header k v
| .opContentType ct => b.content_type ct
| .opBodyText s => b.body_text s
| .opBodyBytes bs => b.body_bytes bs
| .opCookie n v => b.cookie n v
| .opCookieWithOptions n v ma p ho => b.cookie_with_options n v ma p ho
| .opChunked e => b.chunked e
| .opFileOk d p =>
  match b.file (.ok d) p with
  | .ok b2 => b2
  | .error _ => b

/-- A builder call chain applied to `ResponseBuilder::new`. -/
def applyBuilderOps (ops : List BuilderOp) : ResponseBuilder :=
  ops.foldl applyBuilderOp ResponseBuilder.new

/-- Whether a builder call writes the `Content-Length` or
`Transfer-Encoding` header directly. -/
def opSetsFraming : BuilderOp → Bool
| .opHeader k _ => k = chars "Content-Length" || k = chars "Transfer-Encoding"
| _ => false

/-- One uppercase hexadecimal digit. -/
def hexDigitCharUpper (n : Nat) : Char :=
  if n < 10 then Char.ofNat (48 + n) else Char.ofNat (55 + n)

/-- Modelled from the spec: the repository has no percent-encoder, and the
spec's property "decode(encode(s)) == s" refers to "a correct
percent-encoding of s"; this canonical encoder writes every byte of the
string's UTF-8 encoding as a `%XX` escape with uppercase hex digits. -/
def percentEncode (s : Str) : Str :=
  (utf8Encode s).flatMap (fun b => ['%', hexDigitCharUpper (b / 16), hexDigitCharUpper (b % 16)])

/-- Number of pairs of a map holding a given key (to state "exactly one
`Set-Cookie` entry"). -/
def countKeyPairs (k : Str) (m : StrMap) : Nat :=
  (m.filter (fun p => p.1 == k)).length

/-- The keys of a map are pairwise distinct (every map the program builds
starts empty and is only changed through `insertKV` / `removeKV`). -/
def keysNodupKV (m : StrMap) : Prop := (m.map Prod.fst).Nodup

/-! ## Library lemmas: ASCII and UTF-8 -/

theorem char_toNat_ofNat {n : Nat} (h : n < 55296) : (Char.ofNat n).toNat = n := by
  have hv : n.isValidChar := Or.inl h
  simp [Char.ofNat, Char.ofNatAux, Char.toNat, hv]
  rfl

theorem utf8EncodeChar_ascii {c : Char} (h : c.toNat < 128) : utf8EncodeChar c = [c.toNat] := by
  simp [utf8EncodeChar, h]

theorem utf8Encode_ascii {s : Str} (h : ∀ c ∈ s, c.toNat < 128) :
    utf8Encode s = s.map Char.toNat := by
  induction s with
  | nil => rfl
  | cons c rest ih =>
    have hc : c.toNat < 128 := h c (by simp)
    have hrest : ∀ x ∈ rest, x.toNat < 128 := fun x hx => h x (by simp [hx])
    simp [utf8Encode, List.flatMap_cons, utf8EncodeChar_ascii hc]
    simpa [utf8Encode] using ih hrest

theorem utf8Encode_map_ofNat {l : Bytes} (h : ∀ b ∈ l, b < 128) :
    utf8Encode (l.map Char.ofNat) = l := by
  induction l with
  | nil => rfl
  | cons b rest ih =>
    have hb : b < 128 := h b (by simp)
    have hrest : ∀ x ∈ rest, x < 128 := fun x hx => h x (by simp [hx])
    have htn : (Char.ofNat b).toNat = b := char_toNat_ofNat (by omega)
    simp [utf8Encode, List.flatMap_cons, utf8EncodeChar_ascii (htn ▸ hb), htn]
    simpa [utf8Encode] using ih hrest

theorem utf8Lossy_ascii {l : Bytes} (h : ∀ b ∈ l, b < 128) :
    utf8Lossy l = l.map Char.ofNat := by
  induction l with
  | nil => rfl
  | cons b rest ih =>
    have hb : b < 128 := h b (by simp)
    have hrest : ∀ x ∈ rest, x < 128 := fun x hx => h x (by simp [hx])
    rw [utf8Lossy.eq_def]
    simp [hb, ih hrest]

theorem utf8Encode_append (a b : Str) : utf8Encode (a ++ b) = utf8Encode a ++ utf8Encode b := by
  simp [utf8Encode]

/-! ## Library lemmas: association maps -/

theorem lookupKV_insertKV_self (k v : Str) (m : StrMap) :
    lookupKV k (insertKV k v m) = some v := by
  induction m with
  | nil => simp [insertKV, lookupKV]
  | cons p rest ih =>
    by_cases hp : p.1 = k
    · simp [insertKV, hp, lookupKV]
    · simp [insertKV, hp, lookupKV, ih]

theorem lookupKV_insertKV_ne {k k' : Str} (v : Str) (m : StrMap) (h : k' ≠ k) :
    lookupKV k (insertKV k' v m) = lookupKV k m := by
  induction m with
  | nil => simp [insertKV, lookupKV, h]
  | cons p rest ih =>
    by_cases hp : p.1 = k'
    · simp [insertKV, hp, lookupKV, h, Ne.symm h]
    · simp only [insertKV, hp, if_false]
      by_cases hk : p.1 = k <;> simp [lookupKV, hk, ih]

theorem lookupKV_removeKV_self (k : Str) (m : StrMap) :
    lookupKV k (removeKV k m) = none := by
  induction m with
  | nil => simp [removeKV, lookupKV]
  | cons p rest ih =>
    by_cases hp : p.1 = k
    · simpa [removeKV, lookupKV, hp] using ih
    · simpa [removeKV, lookupKV, hp] using ih

theorem lookupKV_removeKV_ne {k k' : Str} (m : StrMap) (h : k' ≠ k) :
    lookupKV k (removeKV k' m) = lookupKV k m := by
  induction m with
  | nil => simp [removeKV, lookupKV]
  | cons p rest ih =>
    by_cases hp : p.1 = k'
    · have hk : ¬p.1 = k := by rw [hp]; exact h
      calc lookupKV k (removeKV k' (p :: rest)) = lookupKV k (removeKV k' rest) := by
            simp [removeKV, List.filter_cons, hp]
        _ = lookupKV k rest := ih
        _ = lookupKV k (p :: rest) := by simp [lookupKV, hk]
    · calc lookupKV k (removeKV k' (p :: rest)) = lookupKV k (p :: removeKV k' rest) := by
            simp [removeKV, List.filter_cons, hp]
        _ = lookupKV k (p :: rest) := by
            by_cases hk : p.1 = k <;> simp [lookupKV, hk, ih]

theorem lookupKV_foldl_preserve {β : Type} (k : Str) (g : StrMap → β → StrMap)
    (hg : ∀ m x, lookupKV k (g m x) = lookupKV k m) :
    ∀ (l : List β) (m : StrMap), lookupKV k (l.foldl g m) = lookupKV k m := by
  intro l
  induction l with
  | nil => intro m; rfl
  | cons x rest ih => intro m; simpa [List.foldl_cons, hg] using ih (g m x)

/-! ## Library lemmas: numeric formatting and parsing -/

theorem fromStrRadix_cons (radix bound : Nat) (c : Char) (rest : Str)
    (h1 : c ≠ '+') (h2 : c ≠ '-') :
    fromStrRadix radix bound (c :: rest) = parseDigitsPos radix bound 0 (c :: rest) := by
  rw [fromStrRadix.eq_def]
  split
  · simp_all
  · simp_all
  · simp_all
  · rfl

theorem parseDigitsPos_append (radix bound : Nat) (l1 l2 : Str) :
    ∀ acc, parseDigitsPos radix bound acc (l1 ++ l2)
      = (parseDigitsPos radix bound acc l1).bind
          (fun v => parseDigitsPos radix bound v l2) := by
  induction l1 with
  | nil => intro acc; simp [parseDigitsPos]
  | cons c l1' ih =>
    intro acc
    simp only [List.cons_append, parseDigitsPos]
    match digitVal radix c with
    | none => simp
    | some d =>
      simp only
      by_cases hlt : acc * radix + d < bound
      · simp [hlt, ih]
      · simp [hlt]

theorem natToHexFuel_congr :
    ∀ n fuel fuel', n < fuel → n < fuel' → natToHexFuel fuel n = natToHexFuel fuel' n := by
  intro n
  induction n using Nat.strong_induction_on with
  | _ n ih =>
    intro fuel fuel' hf hf'
    match fuel, fuel' with
    | f + 1, f' + 1 =>
      simp only [natToHexFuel]
      by_cases h16 : n < 16
      · simp [h16]
      · have hdiv : n / 16 < n := Nat.div_lt_self (by omega) (by omega)
        simp only [h16, if_false]
        rw [ih (n / 16) hdiv f f' (by omega) (by omega)]

theorem natToHex_eq (n : Nat) :
    natToHex n = if n < 16 then [hexDigitChar n]
                 else natToHex (n / 16) ++ [hexDigitChar (n % 16)] := by
  by_cases h16 : n < 16
  · simp [natToHex, natToHexFuel, h16]
  · have hdiv : n / 16 < n := Nat.div_lt_self (by omega) (by omega)
    rw [if_neg h16]
    show natToHexFuel (n + 1) n = _
    conv_lhs => rw [natToHexFuel]
    rw [if_neg h16]
    congr 1
    exact natToHexFuel_congr (n / 16) n (n / 16 + 1) (by omega) (by omega)

theorem natToHex_ne_nil (n : Nat) : natToHex n ≠ [] := by
  rw [natToHex_eq]
  by_cases h16 : n < 16 <;> simp [h16]

theorem natToHex_all_digits : ∀ n, ∀ c ∈ natToHex n, ∃ d, d < 16 ∧ c = hexDigitChar d := by
  intro n
  induction n using Nat.strong_induction_on with
  | _ n ih =>
    intro c hc
    rw [natToHex_eq] at hc
    by_cases h16 : n < 16
    · simp [h16] at hc
      exact ⟨n, h16, hc⟩
    · have hdiv : n / 16 < n := Nat.div_lt_self (by omega) (by omega)
      simp [h16] at hc
      rcases hc with hc | hc
      · exact ih (n / 16) hdiv c hc
      · exact ⟨n % 16, by omega, hc⟩

theorem hexDigitChar_facts :
    ∀ d, d < 16 →
      digitVal 16 (hexDigitChar d) = some d ∧ hexDigitChar d ≠ '+' ∧
        hexDigitChar d ≠ '-' ∧ rustIsWhitespace (hexDigitChar d) = false ∧
        hexDigitChar d ≠ '\n' ∧ (hexDigitChar d).toNat < 128 := by
  decide

theorem parseDigits_natToHex (bound : Nat) :
    ∀ n acc, acc * 16 ^ (natToHex n).length + n < bound →
      parseDigitsPos 16 bound acc (natToHex n)
        = some (acc * 16 ^ (natToHex n).length + n) := by
  intro n
  induction n using Nat.strong_induction_on with
  | _ n ih =>
    intro acc hb
    by_cases h16 : n < 16
    · rw [natToHex_eq] at hb ⊢
      simp only [h16, if_true] at hb ⊢
      have hd := (hexDigitChar_facts n h16).1
      have hb2 : acc * 16 + n < bound := by
        simp only [List.length_cons, List.length_nil, zero_add, pow_one] at hb
        exact hb
      simp [parseDigitsPos, hd, hb2]
    · have hdiv : n / 16 < n := Nat.div_lt_self (by omega) (by omega)
      rw [natToHex_eq] at hb ⊢
      simp only [h16, if_false] at hb ⊢
      have hdm : 16 * (n / 16) + n % 16 = n := Nat.div_add_mod n 16
      have hlen : (natToHex (n / 16) ++ [hexDigitChar (n % 16)]).length
          = (natToHex (n / 16)).length + 1 := by simp
      rw [hlen] at hb
      have hps : 16 ^ ((natToHex (n / 16)).length + 1)
          = 16 ^ (natToHex (n / 16)).length * 16 := pow_succ 16 _
      rw [hps] at hb
      have hmono : acc * 16 ^ (natToHex (n / 16)).length + n / 16
          ≤ acc * (16 ^ (natToHex (n / 16)).length * 16) + n := by
        have h1 : acc * 16 ^ (natToHex (n / 16)).length
            ≤ acc * (16 ^ (natToHex (n / 16)).length * 16) := by
          apply Nat.mul_le_mul_left
          have : (1 : Nat) ≤ 16 := by omega
          calc 16 ^ (natToHex (n / 16)).length
              = 16 ^ (natToHex (n / 16)).length * 1 := by omega
            _ ≤ 16 ^ (natToHex (n / 16)).length * 16 := Nat.mul_le_mul_left _ this
        have h2 : n / 16 ≤ n := Nat.div_le_self n 16
        omega
      have hbd : acc * 16 ^ (natToHex (n / 16)).length + n / 16 < bound := by omega
      rw [parseDigitsPos_append]
      rw [ih (n / 16) hdiv acc hbd]
      show parseDigitsPos 16 bound (acc * 16 ^ (natToHex (n / 16)).length + n / 16)
          [hexDigitChar (n % 16)] = _
      have hd := (hexDigitChar_facts (n % 16) (by omega)).1
      simp only [parseDigitsPos, hd]
      have harith : (acc * 16 ^ (natToHex (n / 16)).length + n / 16) * 16 + n % 16
          = acc * (16 ^ (natToHex (n / 16)).length * 16) + n := by
        have := hdm
        generalize 16 ^ (natToHex (n / 16)).length = A at *
        have : (acc * A + n / 16) * 16 = acc * A * 16 + (n / 16) * 16 := by ring
        rw [this]
        have hAc : acc * (A * 16) = acc * A * 16 := by ring
        omega
      rw [harith]
      rw [hlen, hps]
      simp [hb, parseDigitsPos]

theorem hex_roundtrip (n : Nat) (h : n < 2 ^ 64) :
    usizeFromHex (natToHex n) = some n := by
  match hl : natToHex n with
  | [] => exact absurd hl (natToHex_ne_nil n)
  | c :: rest =>
    have hc : c ∈ natToHex n := by rw [hl]; simp
    obtain ⟨d, hd, hcd⟩ := natToHex_all_digits n c hc
    have hfacts := hexDigitChar_facts d hd
    rw [usizeFromHex, fromStrRadix_cons 16 (2 ^ 64) c rest (hcd ▸ hfacts.2.1) (hcd ▸ hfacts.2.2.1)]
    rw [← hl]
    have := parseDigits_natToHex (2 ^ 64) n 0 (by simpa using h)
    simpa using this

/-! ## Library lemmas: percent-coding -/

theorem char_eq_of_toNat {c : Char} {n : Nat} (h : c.toNat = n) : c = Char.ofNat n := by
  rw [← h, Char.ofNat_toNat]

theorem hexDigitCharUpper_facts :
    ∀ d, d < 16 → (hexDigitCharUpper d).toNat < 128 := by
  decide

theorem u8FromHex_upper_pair :
    ∀ b, b < 256 → u8FromHex [hexDigitCharUpper (b / 16), hexDigitCharUpper (b % 16)] = some b := by
  decide

theorem urlDecodeBytes_percent (b : Nat) (hb : b < 256) (tail : Bytes) :
    urlDecodeBytes (37 :: (hexDigitCharUpper (b / 16)).toNat ::
        (hexDigitCharUpper (b % 16)).toNat :: tail)
      = Char.ofNat b :: urlDecodeBytes tail := by
  have h1 : (hexDigitCharUpper (b / 16)).toNat < 128 :=
    hexDigitCharUpper_facts _ (by omega)
  have h2 : (hexDigitCharUpper (b % 16)).toNat < 128 :=
    hexDigitCharUpper_facts _ (by omega)
  have hpair : hexPairVal (hexDigitCharUpper (b / 16)).toNat
      (hexDigitCharUpper (b % 16)).toNat = some b := by
    simp only [hexPairVal, h1, h2]
    rw [Char.ofNat_toNat, Char.ofNat_toNat]
    simp [u8FromHex_upper_pair b hb]
  rw [urlDecodeBytes.eq_def]
  simp [hpair]

theorem urlDecodeBytes_other (b : Nat) (h37 : b ≠ 37) (h43 : b ≠ 43) (tail : Bytes) :
    urlDecodeBytes (b :: tail) = Char.ofNat b :: urlDecodeBytes tail := by
  rw [urlDecodeBytes.eq_def]
  simp [h37, h43]

/-! ## Claim C7 — percent-decoding -/

/-- C7 (counterexample): the claim fails outside ASCII.  The one-character
string `é` (U+00E9) contains no `%` and no `+` and no control character,
yet `url_decode` maps it to the two characters `Ã©` (the decoder iterates
over UTF-8 bytes and pushes each byte as a character), both for the plain
string and for its percent-encoding. -/
theorem claim_C7_counterexample :
    HttpParser.url_decode [Char.ofNat 233] ≠ [Char.ofNat 233] ∧
    HttpParser.url_decode (percentEncode [Char.ofNat 233]) ≠ [Char.ofNat 233] := by
  decide

/-- C7 (amended): restricted to ASCII strings, `url_decode` is the identity
on inputs with no `%` and no `+`, and decoding a correct percent-encoding
returns the original string. -/
theorem claim_C7_amended :
    (∀ s : Str, (∀ c ∈ s, c.toNat < 128) → (∀ c ∈ s, c ≠ '%' ∧ c ≠ '+') →
      HttpParser.url_decode s = s) ∧
    (∀ s : Str, (∀ c ∈ s, c.toNat < 128) →
      HttpParser.url_decode (percentEncode s) = s) := by
  constructor
  · intro s hascii hnp
    rw [HttpParser.url_decode, utf8Encode_ascii hascii]
    induction s with
    | nil => rfl
    | cons c rest ih =>
      have hc : c.toNat < 128 := hascii c (by simp)
      have hcp := hnp c (by simp)
      have h37 : c.toNat ≠ 37 := fun h => hcp.1 (by rw [char_eq_of_toNat h])
      have h43 : c.toNat ≠ 43 := fun h => hcp.2 (by rw [char_eq_of_toNat h])
      rw [List.map_cons, urlDecodeBytes_other c.toNat h37 h43, Char.ofNat_toNat]
      exact congrArg (c :: ·)
        (ih (fun x hx => hascii x (by simp [hx])) (fun x hx => hnp x (by simp [hx])))
  · intro s hascii
    rw [HttpParser.url_decode]
    induction s with
    | nil => rfl
    | cons c rest ih =>
      have hc : c.toNat < 128 := hascii c (by simp)
      have hrest : ∀ x ∈ rest, x.toNat < 128 := fun x hx => hascii x (by simp [hx])
      have henc : percentEncode (c :: rest)
          = '%' :: hexDigitCharUpper (c.toNat / 16) :: hexDigitCharUpper (c.toNat % 16) ::
              percentEncode rest := by
        simp [percentEncode, utf8Encode, List.flatMap_cons, utf8EncodeChar_ascii hc]
      rw [henc]
      have hpc : ('%' : Char).toNat < 128 := by decide
      have hu : (hexDigitCharUpper (c.toNat / 16)).toNat < 128 :=
        hexDigitCharUpper_facts _ (by omega)
      have hl : (hexDigitCharUpper (c.toNat % 16)).toNat < 128 :=
        hexDigitCharUpper_facts _ (by omega)
      rw [show ('%' :: hexDigitCharUpper (c.toNat / 16) ::
            hexDigitCharUpper (c.toNat % 16) :: percentEncode rest)
          = ['%', hexDigitCharUpper (c.toNat / 16), hexDigitCharUpper (c.toNat % 16)]
              ++ percentEncode rest from rfl]
      rw [utf8Encode_append]
      rw [show utf8Encode ['%', hexDigitCharUpper (c.toNat / 16),
            hexDigitCharUpper (c.toNat % 16)]
          = [37, (hexDigitCharUpper (c.toNat / 16)).toNat,
              (hexDigitCharUpper (c.toNat % 16)).toNat] by
        simp [utf8Encode, List.flatMap_cons, utf8EncodeChar_ascii, hpc, hu, hl]]
      rw [List.cons_append, List.cons_append, List.cons_append, List.nil_append]
      rw [urlDecodeBytes_percent c.toNat (by omega) (utf8Encode (percentEncode rest))]
      rw [Char.ofNat_toNat]
      exact congrArg (c :: ·) (ih hrest)

/-- C7 (witness): the amended theorem applied at the ASCII inputs `abc`
(no `%`/`+`) and `a b!`. -/
theorem claim_C7_witness :
    HttpParser.url_decode (chars "abc") = chars "abc" ∧
    HttpParser.url_decode (percentEncode (chars "a b!")) = chars "a b!" :=
  ⟨claim_C7_amended.1 (chars "abc") (by decide) (by decide),
   claim_C7_amended.2 (chars "a b!") (by decide)⟩

/-! ## Claim C1 — parse completeness -/

/-- C1 (code evaluation at the failing input): the first-read prefix
`GET / HTTP/1.1\r\nHost: x\r\n` contains no header-terminating blank line,
yet `HttpParser::parse` does not return `None`: it returns a request whose
body is the entire buffer rejoined with `\n` (`body_start` is never moved
past 0 when no empty line is seen), so the server dispatches after the
first read instead of waiting for the terminator. -/
theorem claim_C1_code_evaluation :
    (∀ l ∈ rustLines (utf8Lossy (utf8Encode (chars "GET / HTTP/1.1\r\nHost: x\r\n"))),
      l ≠ []) ∧
    (HttpParser.parse (utf8Encode (chars "GET / HTTP/1.1\r\nHost: x\r\n"))).isSome = true ∧
    Option.map HttpRequest.body
        (HttpParser.parse (utf8Encode (chars "GET / HTTP/1.1\r\nHost: x\r\n")))
      = some (utf8Encode (chars "GET / HTTP/1.1\nHost: x")) := by
  decide

/-! ## Library lemmas: key uniqueness and counting -/

theorem mem_keys_insertKV {x k : Str} (v : Str) (m : StrMap) :
    x ∈ (insertKV k v m).map Prod.fst ↔ x ∈ m.map Prod.fst ∨ x = k := by
  induction m with
  | nil => simp [insertKV]
  | cons p rest ih =>
    by_cases hp : p.1 = k
    · subst hp
      simp [insertKV]
      tauto
    · simp [insertKV, hp, ih]
      tauto

theorem keysNodup_insertKV (k v : Str) (m : StrMap) (h : keysNodupKV m) :
    keysNodupKV (insertKV k v m) := by
  induction m with
  | nil => simp [insertKV, keysNodupKV]
  | cons p rest ih =>
    rw [keysNodupKV, List.map_cons, List.nodup_cons] at h
    by_cases hp : p.1 = k
    · subst hp
      rw [keysNodupKV]
      have hins : insertKV p.1 v (p :: rest) = (p.1, v) :: rest := by
        simp [insertKV]
      rw [hins, List.map_cons, List.nodup_cons]
      exact h
    · have hr := ih h.2
      rw [keysNodupKV]
      simp only [insertKV, hp, if_false, List.map_cons, List.nodup_cons]
      constructor
      · rw [mem_keys_insertKV]
        push_neg
        exact ⟨h.1, hp⟩
      · exact hr

theorem keysNodup_removeKV (k : Str) (m : StrMap) (h : keysNodupKV m) :
    keysNodupKV (removeKV k m) := by
  rw [keysNodupKV]
  exact ((List.filter_sublist m).map Prod.fst).nodup h

theorem countKeyPairs_zero_of_not_mem {k : Str} {m : StrMap}
    (h : k ∉ m.map Prod.fst) : countKeyPairs k m = 0 := by
  induction m with
  | nil => rfl
  | cons p rest ih =>
    simp only [List.map_cons, List.mem_cons] at h
    push_neg at h
    have hp : ¬(p.1 == k) = true := by
      simp only [beq_iff_eq]
      exact fun he => h.1 he.symm
    simp only [countKeyPairs, List.filter_cons, hp, if_false]
    exact ih h.2

theorem countKeyPairs_eq_one {k : Str} {m : StrMap} (h : keysNodupKV m)
    (hl : (lookupKV k m).isSome) : countKeyPairs k m = 1 := by
  induction m with
  | nil => simp [lookupKV] at hl
  | cons p rest ih =>
    rw [keysNodupKV, List.map_cons, List.nodup_cons] at h
    by_cases hp : p.1 = k
    · have hz : countKeyPairs k rest = 0 :=
        countKeyPairs_zero_of_not_mem (hp ▸ h.1)
      simp only [countKeyPairs, List.filter_cons, hp, beq_self_eq_true, if_true,
        List.length_cons]
      have : countKeyPairs k rest = (rest.filter (fun q => q.1 == k)).length := rfl
      omega
    · have hl2 : (lookupKV k rest).isSome := by
        simpa [lookupKV, hp] using hl
      have hpb : ¬(p.1 == k) = true := by simp [hp]
      simp only [countKeyPairs, List.filter_cons, hpb, if_false]
      exact ih h.2 hl2

theorem lookupKV_foldl_insert_key (k : Str) (fmt : Str × Str → Str) :
    ∀ (cs : List (Str × Str)) (m : StrMap), cs ≠ [] →
      lookupKV k (cs.foldl (fun h c => insertKV k (fmt c) h) m)
        = cs.getLast?.map fmt := by
  intro cs
  induction cs with
  | nil => intro m hm; exact absurd rfl hm
  | cons c rest ih =>
    intro m _
    match rest with
    | [] => simp [lookupKV_insertKV_self]
    | c2 :: rest2 =>
      rw [List.foldl_cons]
      rw [ih (insertKV k (fmt c) m) (by simp)]
      rw [List.getLast?_cons_cons]

theorem keysNodup_foldl_insert (k : Str) (fmt : Str × Str → Str) :
    ∀ (cs : List (Str × Str)) (m : StrMap), keysNodupKV m →
      keysNodupKV (cs.foldl (fun h c => insertKV k (fmt c) h) m) := by
  intro cs
  induction cs with
  | nil => intro m hm; exact hm
  | cons c rest ih =>
    intro m hm
    rw [List.foldl_cons]
    exact ih _ (keysNodup_insertKV _ _ _ hm)

theorem keysNodup_applyBuilderOp (b : ResponseBuilder) (op : BuilderOp)
    (h : keysNodupKV b.headers) : keysNodupKV (applyBuilderOp b op).headers := by
  cases op with
  | opStatus s t => exact h
  | opHeader k v => exact keysNodup_insertKV _ _ _ h
  | opContentType ct => exact keysNodup_insertKV _ _ _ h
  | opBodyText s => exact h
  | opBodyBytes bs => exact h
  | opCookie n v => exact h
  | opCookieWithOptions n v ma p ho => exact keysNodup_insertKV _ _ _ h
  | opChunked e =>
    cases e with
    | true =>
      simp only [applyBuilderOp, ResponseBuilder.chunked, if_true]
      exact keysNodup_removeKV _ _ (keysNodup_insertKV _ _ _ h)
    | false => exact h
  | opFileOk d p => exact keysNodup_insertKV _ _ _ h

theorem keysNodup_applyBuilderOps (ops : List BuilderOp) :
    keysNodupKV (applyBuilderOps ops).headers := by
  rw [applyBuilderOps]
  have : ∀ b : ResponseBuilder, keysNodupKV b.headers →
      keysNodupKV (ops.foldl applyBuilderOp b).headers := by
    induction ops with
    | nil => intro b hb; exact hb
    | cons op rest ih =>
      intro b hb
      exact ih _ (keysNodup_applyBuilderOp b op hb)
  exact this ResponseBuilder.new (by simp [ResponseBuilder.new, keysNodupKV])

/-! ## Claim C8 — cookie overwriting -/

/-- C8: when the simple `cookie()` method is called more than once in a
builder chain (each call appends exactly one pair to the cookies vector),
the built response's header map holds exactly one `Set-Cookie` entry, whose
value is the formatted cookie of the last call — one of the calls — so the
earlier ones are silently overwritten. -/
theorem cookies_length_foldl :
    ∀ (ops : List BuilderOp) (b : ResponseBuilder),
      (ops.foldl applyBuilderOp b).cookies.length
        = b.cookies.length + ops.countP (fun op =>
            match op with | BuilderOp.opCookie _ _ => true | _ => false) := by
  intro ops
  induction ops with
  | nil => intro b; simp
  | cons op rest ih =>
    intro b
    rw [List.foldl_cons, ih, List.countP_cons]
    cases op <;> simp [applyBuilderOp, ResponseBuilder.cookie, ResponseBuilder.status',
      ResponseBuilder.header, ResponseBuilder.content_type, ResponseBuilder.body_text,
      ResponseBuilder.body_bytes, ResponseBuilder.cookie_with_options,
      ResponseBuilder.chunked, ResponseBuilder.file] <;> try omega
    case opChunked e => cases e <;> simp <;> omega

theorem claim_C8 (ops : List BuilderOp)
    (hcalls : 2 ≤ (ops.countP fun op =>
      match op with | BuilderOp.opCookie _ _ => true | _ => false)) :
    ∃ c, (applyBuilderOps ops).cookies.getLast? = some c ∧
      c ∈ (applyBuilderOps ops).cookies ∧
      lookupKV (chars "Set-Cookie") ((applyBuilderOps ops).build).headers
        = some (c.1 ++ chars "=" ++ c.2) ∧
      countKeyPairs (chars "Set-Cookie") ((applyBuilderOps ops).build).headers = 1 := by
  have hlen : (applyBuilderOps ops).cookies.length
      = ops.countP (fun op =>
          match op with | BuilderOp.opCookie _ _ => true | _ => false) := by
    rw [applyBuilderOps, cookies_length_foldl ops ResponseBuilder.new]
    simp [ResponseBuilder.new]
  have hne : (applyBuilderOps ops).cookies ≠ [] := by
    intro hnil
    rw [hnil] at hlen
    simp at hlen
    omega
  obtain ⟨c, hc⟩ := Option.isSome_iff_exists.mp (by
    rwa [List.getLast?_isSome] : ((applyBuilderOps ops).cookies.getLast?).isSome)
  refine ⟨c, hc, ?_, ?_, ?_⟩
  · exact List.mem_of_mem_getLast? hc
  · rw [ResponseBuilder.build]
    simp only
    rw [lookupKV_foldl_insert_key _ _ _ _ hne, hc]
    rfl
  · have hnodup0 := keysNodup_applyBuilderOps ops
    have hnodup1 : keysNodupKV (if !(applyBuilderOps ops).is_chunked &&
        !containsKeyKV (chars "Content-Length") (applyBuilderOps ops).headers then
          insertKV (chars "Content-Length")
            (natToDec (applyBuilderOps ops).body.length) (applyBuilderOps ops).headers
        else (applyBuilderOps ops).headers) := by
      split
      · exact keysNodup_insertKV _ _ _ hnodup0
      · exact hnodup0
    have hnodup2 := keysNodup_foldl_insert (chars "Set-Cookie")
      (fun c => c.1 ++ chars "=" ++ c.2) (applyBuilderOps ops).cookies _ hnodup1
    have hsome : (lookupKV (chars "Set-Cookie")
        ((applyBuilderOps ops).build).headers).isSome := by
      rw [ResponseBuilder.build]
      simp only
      rw [lookupKV_foldl_insert_key _ _ _ _ hne, hc]
      rfl
    exact countKeyPairs_eq_one (by
      rw [ResponseBuilder.build]
      exact hnodup2) hsome

/-- C8 (witness): two `cookie()` calls; the surviving `Set-Cookie` value is
the second call's cookie and there is exactly one such header entry. -/
theorem claim_C8_witness :
    lookupKV (chars "Set-Cookie")
        ((applyBuilderOps [BuilderOp.opCookie (chars "a") (chars "1"),
            BuilderOp.opCookie (chars "b") (chars "2")]).build).headers
      = some (chars "b=2") ∧
    countKeyPairs (chars "Set-Cookie")
        ((applyBuilderOps [BuilderOp.opCookie (chars "a") (chars "1"),
            BuilderOp.opCookie (chars "b") (chars "2")]).build).headers = 1 := by
  obtain ⟨c, hc1, _, hc3, hc4⟩ := claim_C8
    [BuilderOp.opCookie (chars "a") (chars "1"),
     BuilderOp.opCookie (chars "b") (chars "2")] (by decide)
  have hcv : c = (chars "b", chars "2") := by
    have h2 : (applyBuilderOps [BuilderOp.opCookie (chars "a") (chars "1"),
        BuilderOp.opCookie (chars "b") (chars "2")]).cookies.getLast?
        = some ((chars "b", chars "2")) := by decide
    rw [h2] at hc1
    exact (Option.some.inj hc1).symm
  subst hcv
  exact ⟨hc3, hc4⟩

/-! ## Claim C10 — hardcoded CGI environment entries -/

theorem lookupKV_httpHeaderFold (headers : StrMap) (env : StrMap) (k : Str)
    (hk : ∀ s : Str, 'H' :: 'T' :: 'T' :: 'P' :: '_' :: s ≠ k) :
    lookupKV k (headers.foldl
        (fun e p => insertKV (chars "HTTP_" ++ dashToUnderscore (upperStr p.1)) p.2 e) env)
      = lookupKV k env := by
  apply lookupKV_foldl_preserve
  intro m x
  apply lookupKV_insertKV_ne
  exact hk (dashToUnderscore (upperStr x.1))

theorem lookupKV_sysEnvFold (sysEnv : StrMap) (env : StrMap) (k : Str)
    (h1 : chars "PATH" ≠ k) (h2 : chars "HOME" ≠ k) (h3 : chars "USER" ≠ k) :
    lookupKV k (sysEnv.foldl
        (fun e p =>
          if p.1 = chars "PATH" ∨ p.1 = chars "HOME" ∨ p.1 = chars "USER" then
            insertKV p.1 p.2 e
          else e) env)
      = lookupKV k env := by
  apply lookupKV_foldl_preserve
  intro m x
  split
  · apply lookupKV_insertKV_ne
    rename_i hx
    rcases hx with hx | hx | hx <;> rw [hx] <;> assumption
  · rfl

/-- C10: for a request whose path starts with `/cgi-bin/`, `Router::handle`
delegates to the CGI bridge with the literal client address `127.0.0.1`,
and the environment `build_cgi_env` builds for that call maps `REMOTE_ADDR`
and `REMOTE_HOST` to `127.0.0.1`, `SERVER_NAME` to `localhost` and
`SERVER_PORT` to `8000`, whatever the request, the routes, or the host
process environment are. -/
theorem claim_C10 {α : Type} (routes : List (Route α)) (req : HttpRequest) (sysEnv : StrMap)
    (hpath : startsWithStr req.path (chars "/cgi-bin/") = true) :
    Router.handle routes req = RouteOutcome.cgi ∧
    lookupKV (chars "REMOTE_ADDR") (build_cgi_env req routerCgiClientIp sysEnv)
      = some (chars "127.0.0.1") ∧
    lookupKV (chars "REMOTE_HOST") (build_cgi_env req routerCgiClientIp sysEnv)
      = some (chars "127.0.0.1") ∧
    lookupKV (chars "SERVER_NAME") (build_cgi_env req routerCgiClientIp sysEnv)
      = some (chars "localhost") ∧
    lookupKV (chars "SERVER_PORT") (build_cgi_env req routerCgiClientIp sysEnv)
      = some (chars "8000") := by
  refine ⟨by simp [Router.handle, hpath], ?_, ?_, ?_, ?_⟩
  · simp only [build_cgi_env]
    rw [lookupKV_sysEnvFold _ _ _ (by decide) (by decide) (by decide)]
    rw [lookupKV_insertKV_ne _ _ (show chars "GATEWAY_INTERFACE" ≠ chars "REMOTE_ADDR" by decide)]
    rw [lookupKV_httpHeaderFold _ _ _ (fun s => by
      intro he
      rw [show chars "REMOTE_ADDR" = 'R' :: chars "EMOTE_ADDR" from rfl] at he
      injection he with h1 _
      exact absurd h1 (by decide))]
    rw [lookupKV_insertKV_ne _ _ (show chars "REMOTE_HOST" ≠ chars "REMOTE_ADDR" by decide)]
    rw [lookupKV_insertKV_self]
    rfl
  · simp only [build_cgi_env]
    rw [lookupKV_sysEnvFold _ _ _ (by decide) (by decide) (by decide)]
    rw [lookupKV_insertKV_ne _ _ (show chars "GATEWAY_INTERFACE" ≠ chars "REMOTE_HOST" by decide)]
    rw [lookupKV_httpHeaderFold _ _ _ (fun s => by
      intro he
      rw [show chars "REMOTE_HOST" = 'R' :: chars "EMOTE_HOST" from rfl] at he
      injection he with h1 _
      exact absurd h1 (by decide))]
    rw [lookupKV_insertKV_self]
    rfl
  · simp only [build_cgi_env]
    rw [lookupKV_sysEnvFold _ _ _ (by decide) (by decide) (by decide)]
    rw [lookupKV_insertKV_ne _ _ (show chars "GATEWAY_INTERFACE" ≠ chars "SERVER_NAME" by decide)]
    rw [lookupKV_httpHeaderFold _ _ _ (fun s => by
      intro he
      rw [show chars "SERVER_NAME" = 'S' :: chars "ERVER_NAME" from rfl] at he
      injection he with h1 _
      exact absurd h1 (by decide))]
    rw [lookupKV_insertKV_ne _ _ (show chars "REMOTE_HOST" ≠ chars "SERVER_NAME" by decide)]
    rw [lookupKV_insertKV_ne _ _ (show chars "REMOTE_ADDR" ≠ chars "SERVER_NAME" by decide)]
    rw [lookupKV_insertKV_ne _ _ (show chars "SERVER_SOFTWARE" ≠ chars "SERVER_NAME" by decide)]
    rw [lookupKV_insertKV_ne _ _ (show chars "SERVER_PROTOCOL" ≠ chars "SERVER_NAME" by decide)]
    rw [lookupKV_insertKV_ne _ _ (show chars "SERVER_PORT" ≠ chars "SERVER_NAME" by decide)]
    rw [lookupKV_insertKV_self]
  · simp only [build_cgi_env]
    rw [lookupKV_sysEnvFold _ _ _ (by decide) (by decide) (by decide)]
    rw [lookupKV_insertKV_ne _ _ (show chars "GATEWAY_INTERFACE" ≠ chars "SERVER_PORT" by decide)]
    rw [lookupKV_httpHeaderFold _ _ _ (fun s => by
      intro he
      rw [show chars "SERVER_PORT" = 'S' :: chars "ERVER_PORT" from rfl] at he
      injection he with h1 _
      exact absurd h1 (by decide))]
    rw [lookupKV_insertKV_ne _ _ (show chars "REMOTE_HOST" ≠ chars "SERVER_PORT" by decide)]
    rw [lookupKV_insertKV_ne _ _ (show chars "REMOTE_ADDR" ≠ chars "SERVER_PORT" by decide)]
    rw [lookupKV_insertKV_ne _ _ (show chars "SERVER_SOFTWARE" ≠ chars "SERVER_PORT" by decide)]
    rw [lookupKV_insertKV_ne _ _ (show chars "SERVER_PROTOCOL" ≠ chars "SERVER_PORT" by decide)]
    rw [lookupKV_insertKV_self]

/-- C10 (witness): the theorem applied to a concrete `GET /cgi-bin/t.cgi`
request with an empty route table and empty host environment. -/
theorem claim_C10_witness :
    Router.handle ([] : List (Route Nat))
        ⟨chars "GET", chars "/cgi-bin/t.cgi", none, chars "HTTP/1.1",
          [], [], [], [], [], []⟩ = RouteOutcome.cgi ∧
    lookupKV (chars "REMOTE_ADDR")
        (build_cgi_env
          ⟨chars "GET", chars "/cgi-bin/t.cgi", none, chars "HTTP/1.1",
            [], [], [], [], [], []⟩ routerCgiClientIp [])
      = some (chars "127.0.0.1") ∧
    lookupKV (chars "REMOTE_HOST")
        (build_cgi_env
          ⟨chars "GET", chars "/cgi-bin/t.cgi", none, chars "HTTP/1.1",
            [], [], [], [], [], []⟩ routerCgiClientIp [])
      = some (chars "127.0.0.1") ∧
    lookupKV (chars "SERVER_NAME")
        (build_cgi_env
          ⟨chars "GET", chars "/cgi-bin/t.cgi", none, chars "HTTP/1.1",
            [], [], [], [], [], []⟩ routerCgiClientIp [])
      = some (chars "localhost") ∧
    lookupKV (chars "SERVER_PORT")
        (build_cgi_env
          ⟨chars "GET", chars "/cgi-bin/t.cgi", none, chars "HTTP/1.1",
            [], [], [], [], [], []⟩ routerCgiClientIp [])
      = some (chars "8000") :=
  claim_C10 [] _ [] (by decide)

/-! ## Claim C2 — response framing invariant -/

theorem builder_framing_inv :
    ∀ (ops : List BuilderOp) (b : ResponseBuilder),
      (∀ op ∈ ops, opSetsFraming op = false) →
      lookupKV (chars "Content-Length") b.headers = none →
      (b.is_chunked = true →
        lookupKV (chars "Transfer-Encoding") b.headers = some (chars "chunked")) →
      lookupKV (chars "Content-Length") (ops.foldl applyBuilderOp b).headers = none ∧
      ((ops.foldl applyBuilderOp b).is_chunked = true →
        lookupKV (chars "Transfer-Encoding") (ops.foldl applyBuilderOp b).headers
          = some (chars "chunked")) := by
  intro ops
  induction ops with
  | nil => intro b _ hcl hte; exact ⟨hcl, hte⟩
  | cons op rest ih =>
    intro b hops hcl hte
    rw [List.foldl_cons]
    have hop : opSetsFraming op = false := hops op (by simp)
    have hrest : ∀ o ∈ rest, opSetsFraming o = false := fun o ho => hops o (by simp [ho])
    apply ih _ hrest
    · cases op with
      | opStatus s t => exact hcl
      | opHeader k v =>
        have hk : ¬(k = chars "Content-Length" ∨ k = chars "Transfer-Encoding") := by
          simpa [opSetsFraming] using hop
        push_neg at hk
        simpa [applyBuilderOp, ResponseBuilder.header,
          lookupKV_insertKV_ne _ _ hk.1] using hcl
      | opContentType ct =>
        simpa [applyBuilderOp, ResponseBuilder.content_type,
          lookupKV_insertKV_ne _ _
            (show chars "Content-Type" ≠ chars "Content-Length" by decide)] using hcl
      | opBodyText s => exact hcl
      | opBodyBytes bs => exact hcl
      | opCookie n v => exact hcl
      | opCookieWithOptions n v ma p ho =>
        simpa [applyBuilderOp, ResponseBuilder.cookie_with_options,
          lookupKV_insertKV_ne _ _
            (show chars "Set-Cookie" ≠ chars "Content-Length" by decide)] using hcl
      | opChunked e =>
        cases e with
        | true =>
          simp [applyBuilderOp, ResponseBuilder.chunked, lookupKV_removeKV_self]
        | false => exact hcl
      | opFileOk d p =>
        simpa [applyBuilderOp, ResponseBuilder.file,
          lookupKV_insertKV_ne _ _
            (show chars "Content-Type" ≠ chars "Content-Length" by decide)] using hcl
    · cases op with
      | opStatus s t => exact hte
      | opHeader k v =>
        have hk : ¬(k = chars "Content-Length" ∨ k = chars "Transfer-Encoding") := by
          simpa [opSetsFraming] using hop
        push_neg at hk
        intro hch
        have := hte (by simpa [applyBuilderOp, ResponseBuilder.header] using hch)
        simpa [applyBuilderOp, ResponseBuilder.header,
          lookupKV_insertKV_ne _ _ hk.2] using this
      | opContentType ct =>
        intro hch
        have := hte (by simpa [applyBuilderOp, ResponseBuilder.content_type] using hch)
        simpa [applyBuilderOp, ResponseBuilder.content_type,
          lookupKV_insertKV_ne _ _
            (show chars "Content-Type" ≠ chars "Transfer-Encoding" by decide)] using this
      | opBodyText s => exact hte
      | opBodyBytes bs => exact hte
      | opCookie n v => exact hte
      | opCookieWithOptions n v ma p ho =>
        intro hch
        have := hte (by
          simpa [applyBuilderOp, ResponseBuilder.cookie_with_options] using hch)
        simpa [applyBuilderOp, ResponseBuilder.cookie_with_options,
          lookupKV_insertKV_ne _ _
            (show chars "Set-Cookie" ≠ chars "Transfer-Encoding" by decide)] using this
      | opChunked e =>
        cases e with
        | true =>
          intro _
          simp [applyBuilderOp, ResponseBuilder.chunked,
            lookupKV_removeKV_ne _
              (show chars "Content-Length" ≠ chars "Transfer-Encoding" by decide),
            lookupKV_insertKV_self]
        | false =>
          intro hch
          simp [applyBuilderOp, ResponseBuilder.chunked] at hch
      | opFileOk d p =>
        intro hch
        have := hte (by simpa [applyBuilderOp, ResponseBuilder.file] using hch)
        simpa [applyBuilderOp, ResponseBuilder.file,
          lookupKV_insertKV_ne _ _
            (show chars "Content-Type" ≠ chars "Transfer-Encoding" by decide)] using this

theorem build_headers (b : ResponseBuilder) :
    (b.build).headers
      = b.cookies.foldl
          (fun h c => insertKV (chars "Set-Cookie") (c.1 ++ chars "=" ++ c.2) h)
          (if !b.is_chunked && !containsKeyKV (chars "Content-Length") b.headers then
            insertKV (chars "Content-Length") (natToDec b.body.length) b.headers
          else b.headers) := rfl

theorem build_body (b : ResponseBuilder) : (b.build).body = b.body := rfl

theorem build_is_chunked (b : ResponseBuilder) : (b.build).is_chunked = b.is_chunked := rfl

/-- C2 (counterexample): a CGI response parsed from
`Status: 200 OK\r\n\r\nHello` has `is_chunked = false` but carries no
`Content-Length` header at all, contradicting the claimed invariant for
responses produced by CGI output parsing. -/
theorem claim_C2_counterexample :
    (parse_cgi_response (chars "Status: 200 OK\r\n\r\nHello")).is_chunked = false ∧
    lookupKV (chars "Content-Length")
        (parse_cgi_response (chars "Status: 200 OK\r\n\r\nHello")).headers = none ∧
    (parse_cgi_response (chars "Status: 200 OK\r\n\r\nHello")).body ≠ [] := by
  decide

/-- C2 (amended): the invariant holds for `HttpResponse::new` and for every
`ResponseBuilder` chain that does not set `Content-Length` or
`Transfer-Encoding` through a direct `header()` call: a chunked build has
no `Content-Length` and a `Transfer-Encoding: chunked` header, a
non-chunked build has `Content-Length` equal to the body length.  Responses
from CGI output parsing are never chunked and carry a `Content-Length`
only when the script emitted one. -/
theorem claim_C2_amended :
    (∀ (status : Nat) (text body : Str),
      (HttpResponse.new status text body).is_chunked = false ∧
      lookupKV (chars "Content-Length") (HttpResponse.new status text body).headers
        = some (natToDec (HttpResponse.new status text body).body.length)) ∧
    (∀ ops : List BuilderOp, (∀ op ∈ ops, opSetsFraming op = false) →
      (((applyBuilderOps ops).build).is_chunked = true →
        lookupKV (chars "Content-Length") ((applyBuilderOps ops).build).headers = none ∧
        lookupKV (chars "Transfer-Encoding") ((applyBuilderOps ops).build).headers
          = some (chars "chunked")) ∧
      (((applyBuilderOps ops).build).is_chunked = false →
        lookupKV (chars "Content-Length") ((applyBuilderOps ops).build).headers
          = some (natToDec ((applyBuilderOps ops).build).body.length))) ∧
    (∀ out : Str, (parse_cgi_response out).is_chunked = false) := by
  refine ⟨?_, ?_, ?_⟩
  · intro status text body
    constructor
    · rfl
    · simp only [HttpResponse.new]
      rw [lookupKV_insertKV_self]
  · intro ops hops
    have hinv := builder_framing_inv ops ResponseBuilder.new hops
      (by simp [ResponseBuilder.new, lookupKV]) (by simp [ResponseBuilder.new])
    rw [← applyBuilderOps] at hinv
    have hchk : ((applyBuilderOps ops).build).is_chunked
        = (applyBuilderOps ops).is_chunked := rfl
    have hbody : ((applyBuilderOps ops).build).body = (applyBuilderOps ops).body := rfl
    constructor
    · intro hch
      rw [hchk] at hch
      have hcond : ¬((!(applyBuilderOps ops).is_chunked &&
          !containsKeyKV (chars "Content-Length") (applyBuilderOps ops).headers) = true) := by
        simp [hch]
      constructor
      · rw [build_headers, if_neg hcond]
        rw [lookupKV_foldl_preserve _ _
          (fun m c => lookupKV_insertKV_ne _ _
            (show chars "Set-Cookie" ≠ chars "Content-Length" by decide))]
        exact hinv.1
      · rw [build_headers, if_neg hcond]
        rw [lookupKV_foldl_preserve _ _
          (fun m c => lookupKV_insertKV_ne _ _
            (show chars "Set-Cookie" ≠ chars "Transfer-Encoding" by decide))]
        exact hinv.2 hch
    · intro hch
      rw [hchk] at hch
      have hnotc : containsKeyKV (chars "Content-Length") (applyBuilderOps ops).headers
          = false := by
        rw [containsKeyKV, hinv.1]
        rfl
      have hcond : (!(applyBuilderOps ops).is_chunked &&
          !containsKeyKV (chars "Content-Length") (applyBuilderOps ops).headers) = true := by
        simp [hch, hnotc]
      rw [build_headers, build_body, if_pos hcond]
      rw [lookupKV_foldl_preserve _ _
        (fun m c => lookupKV_insertKV_ne _ _
          (show chars "Set-Cookie" ≠ chars "Content-Length" by decide))]
      rw [lookupKV_insertKV_self]
  · intro out
    rfl

/-- C2 (witness): the amended theorem applied to `HttpResponse::new 200 OK
"Hi"`, to the chunked chain `[body_text "x", chunked true]`, to the plain
chain `[body_text "abc"]`, and to a concrete CGI output. -/
theorem claim_C2_witness :
    ((HttpResponse.new 200 (chars "OK") (chars "Hi")).is_chunked = false ∧
      lookupKV (chars "Content-Length") (HttpResponse.new 200 (chars "OK") (chars "Hi")).headers
        = some (natToDec (HttpResponse.new 200 (chars "OK") (chars "Hi")).body.length)) ∧
    (lookupKV (chars "Content-Length")
        ((applyBuilderOps [BuilderOp.opBodyText (chars "x"),
            BuilderOp.opChunked true]).build).headers = none ∧
      lookupKV (chars "Transfer-Encoding")
        ((applyBuilderOps [BuilderOp.opBodyText (chars "x"),
            BuilderOp.opChunked true]).build).headers = some (chars "chunked")) ∧
    lookupKV (chars "Content-Length")
        ((applyBuilderOps [BuilderOp.opBodyText (chars "abc")]).build).headers
      = some (natToDec ((applyBuilderOps [BuilderOp.opBodyText (chars "abc")]).build).body.length) ∧
    (parse_cgi_response (chars "X-A: b\n\nBody")).is_chunked = false := by
  refine ⟨claim_C2_amended.1 200 (chars "OK") (chars "Hi"), ?_, ?_, ?_⟩
  · exact (claim_C2_amended.2.1 [BuilderOp.opBodyText (chars "x"), BuilderOp.opChunked true]
      (by decide)).1 (by decide)
  · exact (claim_C2_amended.2.1 [BuilderOp.opBodyText (chars "abc")] (by decide)).2 (by decide)
  · exact claim_C2_amended.2.2 (chars "X-A: b\n\nBody")

/-! ## Claim C4 — routing precedence -/

theorem find?_first {α : Type} (p : α → Bool) :
    ∀ (l : List α) (i : Nat) (r : α),
      l[i]? = some r → p r = true →
      (∀ j r', j < i → l[j]? = some r' → p r' = false) →
      l.find? p = some r := by
  intro l
  induction l with
  | nil => intro i r hi; simp at hi
  | cons a rest ih =>
    intro i r hi hp hj
    match i with
    | 0 =>
      simp at hi
      subst hi
      simp [List.find?_cons, hp]
    | i' + 1 =>
      have ha : p a = false := hj 0 a (by omega) (by simp)
      simp only [List.find?_cons, ha]
      exact ih i' r (by simpa using hi) hp
        (fun j r' hlt hg => hj (j + 1) r' (by omega) (by simpa using hg))

/-- C4: outside the CGI prefix, `Router::handle` first scans the table in
registration order for an exact (method, path) match — the first such route
wins, and no prefix route is consulted — and only when no exact match
exists does it scan again for the first non-root prefix match; in
particular an exact `GET /api/users` route always beats a prefix
`GET /api/` route for the request `GET /api/users`, in either registration
order. -/
theorem claim_C4 {α : Type} :
    (∀ (routes : List (Route α)) (req : HttpRequest) (i : Nat) (r : Route α),
      startsWithStr req.path (chars "/cgi-bin/") = false →
      routes[i]? = some r →
      (r.method == req.method && r.path == req.path) = true →
      (∀ j r', j < i → routes[j]? = some r' →
        (r'.method == req.method && r'.path == req.path) = false) →
      Router.handle routes req = RouteOutcome.handler r.handler) ∧
    (∀ (routes : List (Route α)) (req : HttpRequest) (i : Nat) (r : Route α),
      startsWithStr req.path (chars "/cgi-bin/") = false →
      (∀ r' ∈ routes, (r'.method == req.method && r'.path == req.path) = false) →
      routes[i]? = some r →
      (r.method == req.method && r.path != chars "/" &&
        startsWithStr req.path r.path) = true →
      (∀ j r', j < i → routes[j]? = some r' →
        (r'.method == req.method && r'.path != chars "/" &&
          startsWithStr req.path r'.path) = false) →
      Router.handle routes req = RouteOutcome.handler r.handler) ∧
    (∀ h1 h2 : α,
      Router.handle
          [⟨chars "GET", chars "/api/users", h1⟩, ⟨chars "GET", chars "/api/", h2⟩]
          ⟨chars "GET", chars "/api/users", none, chars "HTTP/1.1",
            [], [], [], [], [], []⟩
        = RouteOutcome.handler h1 ∧
      Router.handle
          [⟨chars "GET", chars "/api/", h2⟩, ⟨chars "GET", chars "/api/users", h1⟩]
          ⟨chars "GET", chars "/api/users", none, chars "HTTP/1.1",
            [], [], [], [], [], []⟩
        = RouteOutcome.handler h1) := by
  refine ⟨?_, ?_, ?_⟩
  · intro routes req i r hcgi hi hp hj
    rw [Router.handle]
    rw [hcgi]
    simp only [Bool.false_eq_true, if_false]
    rw [find?_first _ routes i r hi hp hj]
  · intro routes req i r hcgi hnone hi hp hj
    rw [Router.handle]
    rw [hcgi]
    simp only [Bool.false_eq_true, if_false]
    have hfe : routes.find?
        (fun route => route.method == req.method && route.path == req.path) = none :=
      List.find?_eq_none.mpr (fun x hx => by rw [hnone x hx]; exact Bool.false_ne_true)
    rw [hfe]
    rw [find?_first _ routes i r hi hp hj]
  · intro h1 h2
    exact ⟨rfl, rfl⟩

/-- C4 (witness): the first conjunct applied to the two-route table of the
scenario (exact route at index 0). -/
theorem claim_C4_witness :
    Router.handle
        [⟨chars "GET", chars "/api/users", (1 : Nat)⟩, ⟨chars "GET", chars "/api/", 2⟩]
        ⟨chars "GET", chars "/api/users", none, chars "HTTP/1.1",
          [], [], [], [], [], []⟩
      = RouteOutcome.handler 1 :=
  claim_C4.1
    [⟨chars "GET", chars "/api/users", (1 : Nat)⟩, ⟨chars "GET", chars "/api/", 2⟩]
    ⟨chars "GET", chars "/api/users", none, chars "HTTP/1.1", [], [], [], [], [], []⟩
    0 ⟨chars "GET", chars "/api/users", (1 : Nat)⟩
    (by decide) (by decide) (by decide)
    (fun j r' hj hg => absurd hj (by omega))

/-! ## Claim C6 — CGI error handling -/

/-- C6: a missing script yields the 404 response and the result does not
depend on the process oracle (no spawn is consulted); a spawn or process
I/O failure is converted by `handle_cgi` into a 500 response whose body
contains the script path; in both cases `handle_cgi` returns an ordinary
`HttpResponse` — no error leaves the dispatch. -/
theorem claim_C6 :
    (∀ (req : HttpRequest) (proc1 proc2 : Except Str Bytes) (path ip : Str),
      CGIExecutor.execute false proc1 path req ip
          = Except.ok (HttpResponse.new 404 (chars "Not Found") (chars "CGI script not found")) ∧
      CGIExecutor.execute false proc1 path req ip
          = CGIExecutor.execute false proc2 path req ip) ∧
    (∀ (req : HttpRequest) (e ip : Str),
      (handle_cgi req true (Except.error e) ip).status = 500 ∧
      utf8Encode (cgi_path_of req) <:+: (handle_cgi req true (Except.error e) ip).body) ∧
    (∀ (req : HttpRequest) (proc : Except Str Bytes) (ip : Str),
      handle_cgi req false proc ip
        = HttpResponse.new 404 (chars "Not Found") (chars "CGI script not found")) := by
  refine ⟨?_, ?_, ?_⟩
  · intro req proc1 proc2 path ip
    exact ⟨rfl, rfl⟩
  · intro req e ip
    constructor
    · rfl
    · have hbody : (handle_cgi req true (Except.error e) ip).body
          = utf8Encode (cgiErrorPre ++ e ++ cgiErrorMid ++ cgi_path_of req ++ cgiErrorSuf) :=
        rfl
      rw [hbody]
      rw [utf8Encode_append, utf8Encode_append, utf8Encode_append, utf8Encode_append]
      refine ⟨utf8Encode cgiErrorPre ++ utf8Encode e ++ utf8Encode cgiErrorMid,
        utf8Encode cgiErrorSuf, ?_⟩
      simp [List.append_assoc]
  · intro req proc ip
    rfl

/-! ## Library lemmas: first-occurrence search -/

theorem indexOfSub_le (pat : Str) :
    ∀ (l : Str) (p : Nat), indexOfSub pat l = some p → p + pat.length ≤ l.length := by
  intro l
  induction l with
  | nil =>
    intro p h
    rw [indexOfSub] at h
    split at h
    · rename_i hp
      have : pat = [] := List.prefix_nil.mp (List.isPrefixOf_iff_prefix.mp hp)
      cases h
      simp [this]
    · cases h
  | cons c rest ih =>
    intro p h
    rw [indexOfSub] at h
    split at h
    · rename_i hp
      cases h
      have := (List.isPrefixOf_iff_prefix.mp hp).length_le
      simpa using this
    · match h2 : indexOfSub pat rest with
      | none => rw [h2] at h; cases h
      | some q =>
        rw [h2] at h
        simp at h
        have := ih q h2
        simp only [List.length_cons]
        omega

theorem isPrefixOf_append_of_le (pat : Str) :
    ∀ (l r : Str), pat.length ≤ l.length →
      pat.isPrefixOf (l ++ r) = pat.isPrefixOf l := by
  induction pat with
  | nil => intro l r _; simp [List.isPrefixOf]
  | cons a pat' ih =>
    intro l r hlen
    match l with
    | [] => simp at hlen
    | c :: l' =>
      simp only [List.cons_append, List.isPrefixOf, List.append_eq]
      rw [ih l' r (by simpa using hlen)]

theorem indexOfSub_append (pat : Str) :
    ∀ (x r : Str) (p : Nat), indexOfSub pat x = some p →
      indexOfSub pat (x ++ r) = some p := by
  intro x
  induction x with
  | nil =>
    intro r p h
    rw [indexOfSub] at h
    split at h
    · rename_i hp
      have hnil : pat = [] := List.prefix_nil.mp (List.isPrefixOf_iff_prefix.mp hp)
      cases h
      subst hnil
      match r with
      | [] => rfl
      | c :: r' =>
        rw [List.nil_append, indexOfSub]
        simp [List.isPrefixOf]
    · cases h
  | cons c x' ih =>
    intro r p h
    have hle := indexOfSub_le pat (c :: x') p h
    rw [indexOfSub] at h
    rw [List.cons_append, indexOfSub]
    split at h
    · rename_i hp
      cases h
      have : pat.isPrefixOf (c :: (x' ++ r)) = true := by
        rw [show c :: (x' ++ r) = (c :: x') ++ r from rfl]
        rw [isPrefixOf_append_of_le pat (c :: x') r (by simpa using hle)]
        exact hp
      simp [this]
    · rename_i hp
      match h2 : indexOfSub pat x' with
      | none => rw [h2] at h; cases h
      | some q =>
        rw [h2] at h
        simp at h
        subst h
        have hle2 := indexOfSub_le pat x' q h2
        have hnp : pat.isPrefixOf (c :: (x' ++ r)) = false := by
          rw [show c :: (x' ++ r) = (c :: x') ++ r from rfl]
          rw [isPrefixOf_append_of_le pat (c :: x') r (by simp; omega)]
          exact Bool.not_eq_true _ ▸ (by simpa using hp)
        rw [hnp]
        simp [ih r q h2]

/-! ## Claim C5 — CGI output parsing -/

theorem lookupKV_ct_default (m : StrMap) (v : Str) :
    (lookupKV (chars "Content-Type")
      (if containsKeyKV (chars "Content-Type") m then m
       else insertKV (chars "Content-Type") v m)).isSome = true := by
  split
  · rename_i hc
    rw [containsKeyKV] at hc
    exact hc
  · rw [lookupKV_insertKV_self]
    rfl

/-- C5: `parse_cgi_response` splits headers from body at the first
`\r\n\r\n` — or, when that never occurs, at the first `\n\n`; when neither
occurs the whole output is the body with status 200 `OK` and only the
defaulted `Content-Type: text/html` header; a leading `Status: <code>
<text>` line sets the status regardless of what follows the separator; a
`Content-Type` header is always present in the result; and the scenario
output `Status: 200 OK\r\n\r\nHello` yields exactly status 200, text `OK`,
body `Hello`. -/
theorem claim_C5 :
    (∀ (out : Str) (p : Nat), indexOfSub (chars "\r\n\r\n") out = some p →
      (parse_cgi_response out).body = utf8Encode (out.drop (p + 4))) ∧
    (∀ (out : Str) (p : Nat), indexOfSub (chars "\r\n\r\n") out = none →
      indexOfSub (chars "\n\n") out = some p →
      (parse_cgi_response out).body = utf8Encode (out.drop (p + 2))) ∧
    (∀ out : Str, indexOfSub (chars "\r\n\r\n") out = none →
      indexOfSub (chars "\n\n") out = none →
      (parse_cgi_response out).status = 200 ∧
      (parse_cgi_response out).status_text = chars "OK" ∧
      (parse_cgi_response out).headers = [(chars "Content-Type", chars "text/html")] ∧
      (parse_cgi_response out).body = utf8Encode out) ∧
    (∀ out : Str,
      (lookupKV (chars "Content-Type") (parse_cgi_response out).headers).isSome = true) ∧
    (∀ rest : Str,
      (parse_cgi_response (chars "Status: 404 Missing" ++ chars "\r\n\r\n" ++ rest)).status
        = 404 ∧
      (parse_cgi_response (chars "Status: 404 Missing" ++ chars "\r\n\r\n" ++ rest)).status_text
        = chars "Missing" ∧
      (parse_cgi_response (chars "Status: 404 Missing" ++ chars "\r\n\r\n" ++ rest)).body
        = utf8Encode rest) ∧
    parse_cgi_response (chars "Status: 200 OK\r\n\r\nHello")
      = { status := 200, status_text := chars "OK",
          headers := [(chars "Content-Type", chars "text/html")],
          body := utf8Encode (chars "Hello"), is_chunked := false } := by
  refine ⟨?_, ?_, ?_, ?_, ?_, by decide⟩
  · intro out p h
    have hsplit : rustSplitN2 (chars "\r\n\r\n") out = [out.take p, out.drop (p + 4)] := by
      rw [rustSplitN2, h]
      rfl
    simp [parse_cgi_response, hsplit]
  · intro out p hA h
    have hsplitA : rustSplitN2 (chars "\r\n\r\n") out = [out] := by
      rw [rustSplitN2, hA]
    have hsplitB : rustSplitN2 (chars "\n\n") out = [out.take p, out.drop (p + 2)] := by
      rw [rustSplitN2, h]
      rfl
    simp [parse_cgi_response, hsplitA, hsplitB]
  · intro out hA hB
    have hsplitA : rustSplitN2 (chars "\r\n\r\n") out = [out] := by
      rw [rustSplitN2, hA]
    have hsplitB : rustSplitN2 (chars "\n\n") out = [out] := by
      rw [rustSplitN2, hB]
    have hscan : parseCgiHeaderLines (rustLines (chars "Status: 200 OK")) 200 (chars "OK") []
        = (200, chars "OK", []) := by decide
    refine ⟨?_, ?_, ?_, ?_⟩ <;>
      simp [parse_cgi_response, hsplitA, hsplitB, hscan, containsKeyKV, lookupKV, insertKV]
  · intro out
    simp only [parse_cgi_response]
    exact lookupKV_ct_default _ _
  · intro rest
    have hpre : indexOfSub (chars "\r\n\r\n")
        (chars "Status: 404 Missing" ++ chars "\r\n\r\n") = some 19 := by decide
    have hidx : indexOfSub (chars "\r\n\r\n")
        (chars "Status: 404 Missing" ++ chars "\r\n\r\n" ++ rest) = some 19 := by
      rw [List.append_assoc] at *
      exact indexOfSub_append _ _ rest 19 hpre
    have htake : List.take 19 (chars "Status: 404 Missing" ++ chars "\r\n\r\n" ++ rest)
        = chars "Status: 404 Missing" := by
      rw [List.append_assoc]
      rw [show (19 : Nat) = (chars "Status: 404 Missing").length from rfl]
      exact List.take_left _ _
    have hdrop : List.drop (19 + 4) (chars "Status: 404 Missing" ++ chars "\r\n\r\n" ++ rest)
        = rest := by
      rw [show (19 + 4 : Nat)
          = (chars "Status: 404 Missing" ++ chars "\r\n\r\n").length from rfl]
      exact List.drop_left _ _
    have hsplit0 : rustSplitN2 (chars "\r\n\r\n")
        (chars "Status: 404 Missing" ++ chars "\r\n\r\n" ++ rest)
        = [List.take 19 (chars "Status: 404 Missing" ++ chars "\r\n\r\n" ++ rest),
           List.drop (19 + 4) (chars "Status: 404 Missing" ++ chars "\r\n\r\n" ++ rest)] := by
      rw [rustSplitN2, hidx]
      rfl
    have hsplit : rustSplitN2 (chars "\r\n\r\n")
        (chars "Status: 404 Missing" ++ chars "\r\n\r\n" ++ rest)
        = [chars "Status: 404 Missing", rest] := by
      rw [hsplit0, htake, hdrop]
    have hscan : parseCgiHeaderLines (rustLines (chars "Status: 404 Missing")) 200
        (chars "OK") [] = (404, chars "Missing", []) := by decide
    rw [List.append_assoc] at hsplit
    refine ⟨?_, ?_, ?_⟩ <;>
      simp [parse_cgi_response, hsplit, hscan, containsKeyKV, lookupKV, insertKV]

/-- C5 (witness): the split components applied at concrete outputs — a
CRLF-CRLF split, an LF-LF split, a separator-free output, and the default
Content-Type lookup. -/
theorem claim_C5_witness :
    (parse_cgi_response (chars "A: b\r\n\r\nZZ")).body = utf8Encode (chars "ZZ") ∧
    (parse_cgi_response (chars "A: b\n\nYY")).body = utf8Encode (chars "YY") ∧
    (parse_cgi_response (chars "plain")).status = 200 ∧
    (parse_cgi_response (chars "plain")).body = utf8Encode (chars "plain") ∧
    (parse_cgi_response (chars "Status: 404 Missing\r\n\r\nBody")).status = 404 := by
  refine ⟨?_, ?_, ?_, ?_, ?_⟩
  · have := claim_C5.1 (chars "A: b\r\n\r\nZZ") 4 (by decide)
    simpa using this
  · have := claim_C5.2.1 (chars "A: b\n\nYY") 4 (by decide) (by decide)
    simpa using this
  · exact (claim_C5.2.2.1 (chars "plain") (by decide) (by decide)).1
  · exact (claim_C5.2.2.1 (chars "plain") (by decide) (by decide)).2.2.2
  · have := (claim_C5.2.2.2.2.1 (chars "Body")).1
    simpa using this

/-! ## Claim C9 — whole-buffer body fallback -/

theorem scanHeaderLines_body_start :
    ∀ (ls : List Str) (i : Nat) (st : HeaderScan), (∀ l ∈ ls, l ≠ []) →
      (scanHeaderLines i ls st).body_start = st.body_start := by
  intro ls
  induction ls with
  | nil => intro i st _; rfl
  | cons line rest ih =>
    intro i st hne
    have hl : line ≠ [] := hne line (by simp)
    rw [scanHeaderLines]
    rw [if_neg hl]
    have hrest : ∀ l ∈ rest, l ≠ [] := fun l hl2 => hne l (by simp [hl2])
    rw [ih (i + 1) _ hrest]
    rcases hfind : line.findIdx? (fun ch => ch = ':') with _ | colon
    · simp [hfind]
    · simp only [hfind]
      split_ifs <;> rfl

/-- C9 (counterexample): the claim fails when a header line declares
`Transfer-Encoding: chunked`.  The buffer
`GET / HTTP/1.1\r\nTransfer-Encoding: chunked` has a three-token first
line and no empty line, yet the parsed body is `[]` (the joined lines are
fed through the chunked decoder, which finds no valid chunk), not the
lines rejoined with `\n`. -/
theorem claim_C9_counterexample :
    rustLines (utf8Lossy (utf8Encode (chars "GET / HTTP/1.1\r\nTransfer-Encoding: chunked")))
      = [chars "GET / HTTP/1.1", chars "Transfer-Encoding: chunked"] ∧
    3 ≤ (splitWhitespace (chars "GET / HTTP/1.1")).length ∧
    (∀ x ∈ [chars "GET / HTTP/1.1", chars "Transfer-Encoding: chunked"], x ≠ ([] : Str)) ∧
    Option.map HttpRequest.body
        (HttpParser.parse (utf8Encode (chars "GET / HTTP/1.1\r\nTransfer-Encoding: chunked")))
      = some [] ∧
    utf8Encode (List.intercalate (chars "\n")
        [chars "GET / HTTP/1.1", chars "Transfer-Encoding: chunked"]) ≠ [] := by
  decide

/-- C9 (amended): for every buffer whose decoded text has a first line with
at least three whitespace-separated tokens, no empty line, and whose header
scan does not set the chunked flag, `parse` returns a request whose body is
every line of the input — the request line and header lines included —
joined with `\n`. -/
theorem claim_C9_amended (data : Bytes) (l : Str) (ls : List Str)
    (hlines : rustLines (utf8Lossy data) = l :: ls)
    (htok : 3 ≤ (splitWhitespace l).length)
    (hnoempty : ∀ x ∈ l :: ls, x ≠ [])
    (hnochunk : (scanHeaderLines 1 ls
      { headers := [], cookies := [], body_start := 0, is_chunked := false,
        content_type := [] }).is_chunked = false) :
    Option.map HttpRequest.body (HttpParser.parse data)
      = some (utf8Encode (List.intercalate (chars "\n") (l :: ls))) := by
  have hbs : (scanHeaderLines 1 ls
      { headers := [], cookies := [], body_start := 0, is_chunked := false,
        content_type := [] }).body_start = 0 :=
    scanHeaderLines_body_start ls 1 _ (fun x hx => hnoempty x (by simp [hx]))
  have h3 : ¬((splitWhitespace l).length < 3) := by omega
  simp [HttpParser.parse, hlines, h3, hbs, hnochunk]

/-- C9 (witness): the amended theorem applied to the concrete buffer
`GET /x HTTP/1.1\r\nHost: y`. -/
theorem claim_C9_witness :
    Option.map HttpRequest.body
        (HttpParser.parse (utf8Encode (chars "GET /x HTTP/1.1\r\nHost: y")))
      = some (utf8Encode (List.intercalate (chars "\n")
          [chars "GET /x HTTP/1.1", chars "Host: y"])) :=
  claim_C9_amended _ (chars "GET /x HTTP/1.1") [chars "Host: y"]
    (by decide) (by decide) (by decide) (by decide)

/-! ## Library lemmas: line splitting and chunking -/

theorem splitChar_cons (sep c : Char) (s : Str) :
    splitChar sep (c :: s)
      = match splitChar sep s with
        | [] => [[c]]
        | a :: r => if c = sep then [] :: a :: r else (c :: a) :: r := rfl

theorem splitChar_ne_nil (sep : Char) : ∀ s : Str, splitChar sep s ≠ [] := by
  intro s
  induction s with
  | nil => simp [splitChar]
  | cons c rest ih =>
    rw [splitChar_cons]
    match h : splitChar sep rest with
    | [] => simp
    | a :: r => by_cases hc : c = sep <;> simp [hc]

theorem splitChar_append_noSep (sep : Char) :
    ∀ (l1 : Str), (∀ c ∈ l1, c ≠ sep) →
      ∀ (s2 : Str) (a : Str) (r : List Str), splitChar sep s2 = a :: r →
        splitChar sep (l1 ++ s2) = (l1 ++ a) :: r := by
  intro l1
  induction l1 with
  | nil => intro _ s2 a r h; simpa using h
  | cons c l1' ih =>
    intro hne s2 a r h
    have hc : c ≠ sep := hne c (by simp)
    have hrec := ih (fun x hx => hne x (by simp [hx])) s2 a r h
    rw [List.cons_append, splitChar_cons, hrec]
    simp [hc]

theorem splitChar_cons_sep (sep : Char) (s : Str) :
    splitChar sep (sep :: s) = [] :: splitChar sep s := by
  rw [splitChar_cons]
  match h : splitChar sep s with
  | [] => exact absurd h (splitChar_ne_nil sep s)
  | a :: r => simp

theorem stripOneCR_concat_cr (l : Str) : stripOneCR (l ++ ['\r']) = l := by
  rw [stripOneCR, List.getLast?_concat]
  simp

theorem rustLines_eq (s : Str) (hs : s ≠ []) :
    rustLines s
      = if (splitChar '\n' s).getLast? = some [] then
          (splitChar '\n' s).dropLast.map stripOneCR
        else (splitChar '\n' s).dropLast.map stripOneCR
            ++ [(splitChar '\n' s).getLast?.getD []] := by
  rw [rustLines, if_neg hs]

/-- Peeling one `\r\n`-terminated line off the front of `rustLines`'s
input, when the line contains no `\n`. -/
theorem rustLines_append_crlf (l : Str) (rest : Str) (hl : ∀ c ∈ l, c ≠ '\n') :
    rustLines (l ++ '\r' :: '\n' :: rest) = l :: rustLines rest := by
  have hlcr : ∀ c ∈ l ++ ['\r'], c ≠ '\n' := by
    intro c hc
    rcases List.mem_append.mp hc with h | h
    · exact hl c h
    · simp at h
      subst h
      decide
  match hrest : splitChar '\n' rest with
  | [] => exact absurd hrest (splitChar_ne_nil '\n' rest)
  | a :: r =>
    have hsplit : splitChar '\n' (l ++ '\r' :: '\n' :: rest)
        = (l ++ ['\r']) :: a :: r := by
      have hre : l ++ '\r' :: '\n' :: rest = (l ++ ['\r']) ++ ('\n' :: rest) := by simp
      rw [hre]
      have hsplitn : splitChar '\n' ('\n' :: rest) = [] :: a :: r := by
        rw [splitChar_cons_sep, hrest]
      have := splitChar_append_noSep '\n' (l ++ ['\r']) hlcr ('\n' :: rest)
        [] (a :: r) hsplitn
      simpa using this
    by_cases hre0 : rest = []
    · subst hre0
      have ha : splitChar '\n' ([] : Str) = [[]] := rfl
      rw [ha] at hrest
      cases hrest
      rw [rustLines_eq _ (by simp), hsplit]
      simp [stripOneCR_concat_cr, rustLines]
    · rw [rustLines_eq _ (by simp), hsplit, rustLines_eq rest hre0, hrest]
      have hlast : ((l ++ ['\r']) :: a :: r).getLast? = (a :: r).getLast? :=
        List.getLast?_cons_cons
      have hdl : ((l ++ ['\r']) :: a :: r).dropLast
          = (l ++ ['\r']) :: (a :: r).dropLast := by
        rw [List.dropLast_cons_of_ne_nil]
        simp
      rw [hlast, hdl]
      by_cases hcase : (a :: r).getLast? = some []
      · rw [if_pos hcase, if_pos hcase, List.map_cons, stripOneCR_concat_cr]
      · rw [if_neg hcase, if_neg hcase, List.map_cons, stripOneCR_concat_cr]
        simp

theorem rustChunksFuel_congr (n : Nat) :
    ∀ (fuel : Nat) (l : Bytes) (fuel' : Nat), l.length < fuel → l.length < fuel' →
      rustChunksFuel n fuel l = rustChunksFuel n fuel' l := by
  intro fuel
  induction fuel with
  | zero => intro l fuel' h; omega
  | succ f ih =>
    intro l fuel' h h'
    match fuel' with
    | 0 => omega
    | f' + 1 =>
      match l with
      | [] => rfl
      | b :: rest =>
        simp only [rustChunksFuel]
        by_cases hn : n = 0
        · simp [hn]
        · simp only [hn, if_false]
          congr 1
          have hlen : ((b :: rest).drop n).length < f := by
            have := List.length_drop n (b :: rest)
            simp only [List.length_cons] at this h ⊢
            omega
          have hlen' : ((b :: rest).drop n).length < f' := by
            have := List.length_drop n (b :: rest)
            simp only [List.length_cons] at this h' ⊢
            omega
          exact ih _ f' hlen hlen'

theorem rustChunks_cons (n : Nat) (l : Bytes) (hn : n ≠ 0) (hl : l ≠ []) :
    rustChunks n l = l.take n :: rustChunks n (l.drop n) := by
  match l with
  | [] => exact absurd rfl hl
  | b :: rest =>
    rw [rustChunks]
    show rustChunksFuel n ((b :: rest).length + 1) (b :: rest) = _
    have hstep : rustChunksFuel n ((b :: rest).length + 1) (b :: rest)
        = (b :: rest).take n :: rustChunksFuel n (b :: rest).length ((b :: rest).drop n) := by
      simp only [List.length_cons, rustChunksFuel, hn, if_false]
    rw [hstep]
    congr 1
    rw [rustChunks]
    apply rustChunksFuel_congr
    · have := List.length_drop n (b :: rest)
      simp only [List.length_cons] at this ⊢
      omega
    · omega

theorem encodeChunkedBody_nil : encodeChunkedBody [] = [48, 13, 10, 13, 10] := rfl

theorem encodeChunkedBody_cons (body : Bytes) (hb : body ≠ []) :
    encodeChunkedBody body
      = utf8Encode (natToHex (body.take 1024).length) ++ [13, 10] ++ body.take 1024
          ++ [13, 10] ++ encodeChunkedBody (body.drop 1024) := by
  rw [encodeChunkedBody, rustChunks_cons 1024 body (by omega) hb, List.foldr_cons]
  rw [← encodeChunkedBody]

theorem encodeChunkedBody_ascii :
    ∀ (fuel : Nat) (body : Bytes), body.length ≤ fuel → (∀ b ∈ body, b < 128) →
      ∀ x ∈ encodeChunkedBody body, x < 128 := by
  intro fuel
  induction fuel with
  | zero =>
    intro body hlen _ x hx
    have : body = [] := by
      cases body with
      | nil => rfl
      | cons b r => simp at hlen
    subst this
    rw [encodeChunkedBody_nil] at hx
    simp at hx
    rcases hx with h | h | h | h | h <;> omega
  | succ f ih =>
    intro body hlen hascii x hx
    by_cases hb : body = []
    · subst hb
      rw [encodeChunkedBody_nil] at hx
      simp at hx
      rcases hx with h | h | h | h | h <;> omega
    · rw [encodeChunkedBody_cons body hb] at hx
      simp only [List.append_assoc, List.mem_append] at hx
      rcases hx with h | h | h | h | h
      · have hdig := natToHex_all_digits (body.take 1024).length
        rw [utf8Encode_ascii (fun c hc => by
          obtain ⟨d, hd, hcd⟩ := hdig c hc
          subst hcd
          exact (hexDigitChar_facts d hd).2.2.2.2.2)] at h
        obtain ⟨c, hc, hcx⟩ := List.mem_map.mp h
        obtain ⟨d, hd, hcd⟩ := hdig c hc
        subst hcd
        subst hcx
        exact (hexDigitChar_facts d hd).2.2.2.2.2
      · simp at h
        rcases h with h | h <;> omega
      · exact hascii x (List.mem_of_mem_take h)
      · simp at h
        rcases h with h | h <;> omega
      · have hdrop : ∀ b ∈ body.drop 1024, b < 128 :=
          fun b hbm => hascii b (List.mem_of_mem_drop hbm)
        have hdl : (body.drop 1024).length ≤ f := by
          have := List.length_drop 1024 body
          have hbl : 1 ≤ body.length := by
            cases body with
            | nil => exact absurd rfl hb
            | cons => simp
          omega
        exact ih (body.drop 1024) hdl hdrop x h

theorem rustTrim_no_ws (l : Str) (h : ∀ c ∈ l, rustIsWhitespace c = false) :
    rustTrim l = l := by
  have h1 : rustTrimStart l = l := by
    cases l with
    | nil => rfl
    | cons c rest =>
      rw [rustTrimStart, List.dropWhile_cons, h c (by simp)]
      simp
  rw [rustTrim, h1, rustTrimEnd]
  match hrev : l.reverse with
  | [] =>
    have : l = [] := by simpa using congrArg List.reverse hrev
    simp [this]
  | c :: rest =>
    have hc : c ∈ l := by
      rw [← List.mem_reverse, hrev]
      simp
    rw [List.dropWhile_cons, h c hc]
    simp only [if_false, Bool.false_eq_true]
    rw [← hrev, List.reverse_reverse]

theorem decodeChunkedLines_step (hl dl : Str) (rest : List Str) (k : Nat)
    (hparse : usizeFromHex (rustTrim hl) = some k) (hk : k ≠ 0) :
    decodeChunkedLines (hl :: dl :: rest)
      = (utf8Encode dl).take (min k (utf8Encode dl).length) ++ decodeChunkedLines rest := by
  rw [decodeChunkedLines.eq_def]
  simp [usizeFromHex] at hparse
  simp [usizeFromHex, hparse, hk]

theorem decode_encode_aux :
    ∀ (fuel : Nat) (body : Bytes), body.length ≤ fuel → (∀ b ∈ body, b < 128 ∧ b ≠ 10) →
      decodeChunkedLines (rustLines ((encodeChunkedBody body).map Char.ofNat)) = body := by
  intro fuel
  induction fuel with
  | zero =>
    intro body hlen _
    have hb : body = [] := by
      cases body with
      | nil => rfl
      | cons b r => simp at hlen
    subst hb
    decide
  | succ f ih =>
    intro body hlen h
    by_cases hb : body = []
    · subst hb
      decide
    · have htake_ascii : ∀ b ∈ body.take 1024, b < 128 :=
        fun b hbm => (h b (List.mem_of_mem_take hbm)).1
      have htake_nl : ∀ b ∈ body.take 1024, b ≠ 10 :=
        fun b hbm => (h b (List.mem_of_mem_take hbm)).2
      have hk1 : 1 ≤ (body.take 1024).length := by
        rw [List.length_take]
        cases body with
        | nil => exact absurd rfl hb
        | cons x xs => simp
      have hk2 : (body.take 1024).length ≤ 1024 := by
        rw [List.length_take]
        omega
      have hhexNoNL : ∀ c ∈ natToHex (body.take 1024).length, c ≠ '\n' := by
        intro c hc
        obtain ⟨d, hd, hcd⟩ := natToHex_all_digits _ c hc
        subst hcd
        exact (hexDigitChar_facts d hd).2.2.2.2.1
      have hchunkNoNL : ∀ ch ∈ (body.take 1024).map Char.ofNat, ch ≠ '\n' := by
        intro ch hch he
        obtain ⟨b, hbm, hbe⟩ := List.mem_map.mp hch
        have hb128 : b < 128 := htake_ascii b hbm
        have : b = 10 := by
          have := congrArg Char.toNat hbe
          rw [char_toNat_ofNat (by omega)] at this
          rw [he] at hbe
          have h2 := congrArg Char.toNat hbe
          rw [char_toNat_ofNat (by omega)] at h2
          exact h2
        exact htake_nl b hbm this
      have hm1 : (utf8Encode (natToHex (body.take 1024).length)).map Char.ofNat
          = natToHex (body.take 1024).length := by
        rw [utf8Encode_ascii (fun c hc => by
          obtain ⟨d, hd, hcd⟩ := natToHex_all_digits _ c hc
          subst hcd
          exact (hexDigitChar_facts d hd).2.2.2.2.2)]
        rw [List.map_map]
        have : (Char.ofNat ∘ Char.toNat) = id := by
          funext c
          simp [Char.ofNat_toNat]
        rw [this, List.map_id]
      rw [encodeChunkedBody_cons body hb]
      rw [List.map_append, List.map_append, List.map_append, List.map_append]
      rw [hm1]
      rw [show ([13, 10] : Bytes).map Char.ofNat = ['\r', '\n'] from rfl]
      have hassoc : (((natToHex (body.take 1024).length ++ ['\r', '\n'])
            ++ (body.take 1024).map Char.ofNat) ++ ['\r', '\n'])
            ++ (encodeChunkedBody (body.drop 1024)).map Char.ofNat
          = natToHex (body.take 1024).length
              ++ '\r' :: '\n' :: ((body.take 1024).map Char.ofNat
                ++ '\r' :: '\n' :: (encodeChunkedBody (body.drop 1024)).map Char.ofNat) := by
        simp
      rw [hassoc]
      rw [rustLines_append_crlf _ _ hhexNoNL]
      rw [rustLines_append_crlf _ _ hchunkNoNL]
      have hparse : usizeFromHex (rustTrim (natToHex (body.take 1024).length))
          = some (body.take 1024).length := by
        rw [rustTrim_no_ws _ (fun c hc => by
          obtain ⟨d, hd, hcd⟩ := natToHex_all_digits _ c hc
          subst hcd
          exact (hexDigitChar_facts d hd).2.2.2.1)]
        exact hex_roundtrip _ (lt_of_le_of_lt hk2 (by norm_num))
      rw [decodeChunkedLines_step _ _ _ _ hparse (by omega)]
      rw [utf8Encode_map_ofNat htake_ascii]
      rw [min_self, List.take_length]
      have hdlen : (body.drop 1024).length ≤ f := by
        have := List.length_drop 1024 body
        have hbl : 1 ≤ body.length := by
          cases body with
          | nil => exact absurd rfl hb
          | cons => simp
        omega
      rw [ih (body.drop 1024) hdlen
        (fun b hbm => h b (List.mem_of_mem_drop hbm))]
      exact List.take_append_drop 1024 body

/-! ## Claim C3 — chunked round-trip -/

/-- C3 (counterexample): the round-trip fails on bodies containing a
newline.  For the three bytes `a\nb`, the chunk data spans two text lines,
the decoder truncates the first line to one byte and then misreads `b` as
a hex size, producing `a0` instead of `a\nb`. -/
theorem claim_C3_counterexample :
    HttpParser.decode_chunked (encodeChunkedBody [97, 10, 98]) = [97, 48] ∧
    HttpParser.decode_chunked (encodeChunkedBody [97, 10, 98]) ≠ [97, 10, 98] := by
  decide

/-- C3 (amended): for every body of ASCII bytes containing no newline
(0x0A), chunk-encoding with `HttpResponse::to_bytes`'s framing and then
running `HttpParser::decode_chunked` returns exactly the original bytes. -/
theorem claim_C3_amended (body : Bytes) (h : ∀ b ∈ body, b < 128 ∧ b ≠ 10) :
    HttpParser.decode_chunked (encodeChunkedBody body) = body := by
  rw [HttpParser.decode_chunked]
  rw [utf8Lossy_ascii
    (encodeChunkedBody_ascii body.length body le_rfl (fun b hb => (h b hb).1))]
  exact decode_encode_aux body.length body le_rfl h

/-- C3 (witness): the amended theorem applied to a concrete ASCII body
(containing a carriage return but no newline). -/
theorem claim_C3_witness :
    HttpParser.decode_chunked (encodeChunkedBody (utf8Encode (chars "Hello chunked\rworld")))
      = utf8Encode (chars "Hello chunked\rworld") :=
  claim_C3_amended _ (by decide)
